import Mathlib

/-!
# Anti-cache block store and catalog of the execution engine

A shallow embedding of `AntiCacheBlock` and `AntiCacheDB`
(`src/ee/anticache/AntiCacheDB.cpp`) and of the statement parser, the string
splitter and the hex coding of `Catalog` (`src/ee/catalog/catalog.cpp`).

The Berkeley DB engine behind `m_db` and `m_dbEnv` is an external library: it
is a parameter of the embedding (`Engine`), and `mapEngine` is the instance
that stores values in a map from keys to byte strings.  The classes of the
catalog items are not among the sources: their methods are a parameter too
(`ItemOps`).

C++ exceptions are modelled with `Except`; machine integers are `Nat` or
`Int` with the conversions written out (`% 2 ^ 16`, `% 2 ^ 32`, `% 2 ^ 64`).
-/

namespace AntiCache

/-! ## Definitions: the anti-cache block store -/

/-- One `char` of a payload or of a key. -/
abbrev Byte := Fin 256

/-- The exceptions that leave the methods of `AntiCacheDB`. -/
inductive Exn where
  /-- `UnknownBlockAccessException(tableName, block_id)`. -/
  | unknownBlockAccess (tableName : String) (blockId : Nat)
  /-- `FatalException`, the fatal error kind (StoreFault / StoreInitFault). -/
  | fatal (msg : String)
  /-- A `DbException` of the engine, with its `what()`. -/
  | dbException (what : String)
  /-- A failed `assert`. -/
  | assertion
  deriving DecidableEq, Repr

/-- What a call into the engine does: it returns its `int` status together
with its output, or it throws `DbException`. -/
inductive EngineResult (α : Type) where
  | returned (ret : Int) (out : α)
  | thrown (what : String)
  deriving DecidableEq, Repr

/-- The calls `AntiCacheDB` makes into Berkeley DB, over an engine state `σ`.
`put` and `get` take the bytes their `Dbt` arguments show; `get`, called with
`DB_DBT_MALLOC`, hands back the buffer it allocated (`none` for a null
pointer). -/
structure Engine (σ : Type) where
  /-- `DbEnv::open(dir, DB_CREATE | DB_INIT_MPOOL, 0)`. -/
  envOpen : String → EngineResult Unit
  /-- `Db::open(NULL, "anticache.db", NULL, DB_HASH, DB_CREATE, 0)`. -/
  dbOpen : String → EngineResult σ
  /-- `Db::put(NULL, &key, &value, 0)`. -/
  put : σ → List Byte → List Byte → EngineResult σ
  /-- `Db::get(NULL, &key, &value, 0)`. -/
  get : σ → List Byte → EngineResult (Option (List Byte))
  /-- `Db::close(0)`. -/
  dbClose : σ → EngineResult Unit
  /-- `DbEnv::close(0)`. -/
  envClose : σ → EngineResult Unit

/-- A `Dbt`: the memory its data pointer points at and its `u_int32_t` size. -/
structure Dbt where
  data : List Byte
  size : Nat
  deriving DecidableEq, Repr

/-- `Dbt::set_size(u_int32_t)`: the argument is converted to 32 bits. -/
def Dbt.set_size (d : Dbt) (size : Int) : Dbt :=
  { d with size := (size % 2 ^ 32).toNat }

/-- `Dbt::set_data`. -/
def Dbt.set_data (d : Dbt) (data : List Byte) : Dbt :=
  { d with data := data }

/-- The bytes the engine sees through a `Dbt`: `size` bytes from `data`. -/
def Dbt.bytes (d : Dbt) : List Byte :=
  d.data.take d.size

/-- The conversion `static_cast<int32_t>` of a `long`. -/
def toInt32 (n : Int) : Int :=
  (n + 2 ^ 31) % 2 ^ 32 - 2 ^ 31

/-- The conversion of an argument to the parameter type `uint16_t`. -/
def toUInt16 (n : Nat) : Nat :=
  n % 2 ^ 16

/-- The object representation of a `uint16_t` (low byte first), the memory
`&block_id` points at. -/
def uint16Bytes (block_id : Nat) : List Byte :=
  [Fin.ofNat (toUInt16 block_id % 256), Fin.ofNat (toUInt16 block_id / 256)]

/-- The key both `writeBlock` and `readBlock` build:
`key.set_data(&block_id); key.set_size(sizeof(uint16_t));`. -/
def blockKey (block_id : Nat) : Dbt :=
  (({ data := [], size := 0 } : Dbt).set_data (uint16Bytes block_id)).set_size 2

/-- `AntiCacheBlock`: `m_blockId` and the bytes of `m_value`. -/
structure AntiCacheBlock where
  m_blockId : Nat
  m_value : List Byte
  deriving DecidableEq, Repr

/-- `AntiCacheDB`: the directory, the open database and the id counter. -/
structure AntiCacheDB (σ : Type) where
  m_dbDir : String
  m_db : σ
  m_nextBlockId : Nat

/-- Modelled from the spec: the macro `throwFatalException` of
`common/FatalException.hpp`, which is not among the sources.  A fatal error
ends the running function with the fatal error kind. -/
def throwFatalException {α : Type} (msg : String) : Except Exn α :=
  .error (.fatal msg)

/-- `AntiCacheDB::AntiCacheDB(ctx, db_dir)`: `m_nextBlockId(0)`, then the
environment and the database are opened; a `DbException` becomes fatal. -/
def AntiCacheDB.new {σ : Type} (eng : Engine σ) (db_dir : String) :
    Except Exn (AntiCacheDB σ) :=
  match eng.envOpen db_dir with
  | .thrown what =>
    throwFatalException
      ("Failed to initialize anti-cache database in directory " ++ db_dir ++ ": " ++ what)
  | .returned _ _ =>
    match eng.dbOpen "anticache.db" with
    | .thrown what =>
      throwFatalException
        ("Failed to initialize anti-cache database in directory " ++ db_dir ++ ": " ++ what)
    | .returned _ db => .ok { m_dbDir := db_dir, m_db := db, m_nextBlockId := 0 }

/-- `AntiCacheDB::writeBlock(block_id, data, size)`: the status `put` returns
is not looked at, and nothing catches what `put` throws. -/
def AntiCacheDB.writeBlock {σ : Type} (eng : Engine σ) (self : AntiCacheDB σ)
    (block_id : Nat) (data : List Byte) (size : Int) : Except Exn (AntiCacheDB σ) :=
  let key := blockKey block_id
  let value := (({ data := [], size := 0 } : Dbt).set_data data).set_size (toInt32 size)
  match eng.put self.m_db key.bytes value.bytes with
  | .thrown what => .error (.dbException what)
  | .returned _ db => .ok { self with m_db := db }

/-- `AntiCacheDB::readBlock(tableName, block_id)`. -/
def AntiCacheDB.readBlock {σ : Type} (eng : Engine σ) (self : AntiCacheDB σ)
    (tableName : String) (block_id : Nat) : Except Exn AntiCacheBlock :=
  let key := blockKey block_id
  match eng.get self.m_db key.bytes with
  | .thrown what => .error (.dbException what)
  | .returned ret_value value =>
    if ret_value ≠ 0 then
      .error (.unknownBlockAccess tableName (toUInt16 block_id))
    else
      match value with
      | none => .error .assertion
      | some bytes => .ok { m_blockId := toUInt16 block_id, m_value := bytes }

/-- The calls a destructor run makes on the two handles, in order. -/
inductive EngineCall where
  | dbClose
  | deleteDb
  | envClose
  | deleteEnv
  deriving DecidableEq, Repr

/-- `AntiCacheDB::~AntiCacheDB()`: two `try` blocks one after the other, each
with a handler that throws the fatal exception.  The result is the list of
calls made and how the destructor ended. -/
def AntiCacheDB.destroy {σ : Type} (eng : Engine σ) (self : AntiCacheDB σ) :
    List EngineCall × Except Exn Unit :=
  let first : List EngineCall × Except Exn Unit :=
    match eng.dbClose self.m_db with
    | .thrown what =>
      ([.dbClose], throwFatalException ("Failed to close anti-cache database: " ++ what))
    | .returned _ _ => ([.dbClose, .deleteDb], .ok ())
  match first.2 with
  | .error e => (first.1, .error e)
  | .ok _ =>
    let second : List EngineCall × Except Exn Unit :=
      match eng.envClose self.m_db with
      | .thrown what =>
        ([.envClose], throwFatalException
          ("Failed to close anti-cache database environment: " ++ what))
      | .returned _ _ => ([.envClose, .deleteEnv], .ok ())
    (first.1 ++ second.1, second.2)

/-- Modelled from the spec: the allocator's `next()`, declared in
`anticache/AntiCacheDB.h`, which is not among the sources.  "`next()` returns
the current value and post-increments", on the 16-bit counter. -/
def AntiCacheDB.next {σ : Type} (self : AntiCacheDB σ) : Nat × AntiCacheDB σ :=
  (self.m_nextBlockId, { self with m_nextBlockId := (self.m_nextBlockId + 1) % 2 ^ 16 })

/-- One call `writeBlock(block_id, data, size)`. -/
structure WriteCall where
  block_id : Nat
  data : List Byte
  size : Int
  deriving DecidableEq, Repr

/-- A sequence of `writeBlock` calls on one store; the first exception ends it. -/
def AntiCacheDB.writeBlocks {σ : Type} (eng : Engine σ) :
    AntiCacheDB σ → List WriteCall → Except Exn (AntiCacheDB σ)
  | self, [] => .ok self
  | self, w :: ws =>
    match self.writeBlock eng w.block_id w.data w.size with
    | .error e => .error e
    | .ok next => AntiCacheDB.writeBlocks eng next ws

/-- The status `DB_NOTFOUND` of `db.h` (Berkeley DB 4.8 and later); only that
it is not zero is used. -/
def DB_NOTFOUND : Int := -30988

/-- The database as a map from keys to byte strings. -/
abbrev DbMap := List Byte → Option (List Byte)

/-- The engine that is a map from keys to byte strings and never fails:
`put` binds the key to the value, `get` returns the value bound to the key
with status 0, or `DB_NOTFOUND`. -/
def mapEngine : Engine DbMap where
  envOpen _ := .returned 0 ()
  dbOpen _ := .returned 0 (fun _ => none)
  put m key value := .returned 0 (fun k => if k = key then some value else m k)
  get m key :=
    match m key with
    | some value => .returned 0 (some value)
    | none => .returned DB_NOTFOUND none
  dbClose _ := .returned 0 ()
  envClose _ := .returned 0 ()

/-- An engine without contents whose calls end the way they are told to. -/
def scriptedEngine (putResult : EngineResult Unit)
    (getResult : EngineResult (Option (List Byte)))
    (dbCloseResult envCloseResult : EngineResult Unit) : Engine Unit where
  envOpen _ := .returned 0 ()
  dbOpen _ := .returned 0 ()
  put _ _ _ := putResult
  get _ _ := getResult
  dbClose _ := dbCloseResult
  envClose _ := envCloseResult

/-- The store on the map engine with nothing written to it. -/
def emptyStore (dir : String) : AntiCacheDB DbMap :=
  { m_dbDir := dir, m_db := fun _ => none, m_nextBlockId := 0 }

/-- The calls `writeBlock(i, f i, |f i|)` for `i = 0, ..., n-1`, in this order. -/
def writesUpTo (f : Nat → List Byte) (n : Nat) : List WriteCall :=
  (List.range n).map fun i => { block_id := i, data := f i, size := ((f i).length : Int) }

/-- A payload of 2^32 zero bytes. -/
def payload4GiB : List Byte := List.replicate (2 ^ 32) 0

end AntiCache

namespace catalog

/-! ## Definitions: the catalog (`src/ee/catalog/catalog.cpp`) -/

/-- A `std::string` by its characters; a C++ `char` (signed, 8 bits) is the
`Int` that is its value. -/
abbrev Str := List Int

/-- The characters of a string literal. -/
def lit (s : String) : Str :=
  s.toList.map fun c => (c.toNat : Int)

/-- What ends a catalog function other than a normal return. -/
inductive CatalogExn where
  /-- `SerializableEEException(VOLT_EE_EXCEPTION_TYPE_EEEXCEPTION, msg)`. -/
  | serializableEE (msg : String)
  /-- A failed `assert`. -/
  | assertion
  /-- `std::out_of_range`, thrown by `substr` for a position beyond the size. -/
  | outOfRange
  /-- An access outside the buffer or the string, at this index. -/
  | outOfBounds (index : Int)
  deriving DecidableEq, Repr

/-- `std::string::npos`, the largest `size_t`. -/
def npos : Nat := 2 ^ 64 - 1

/-- Addition of `size_t` values. -/
def sizeAdd (a b : Nat) : Nat :=
  (a + b) % 2 ^ 64

/-- Subtraction of `size_t` values. -/
def sizeSub (a b : Nat) : Nat :=
  (a + 2 ^ 64 - b) % 2 ^ 64

/-- The search of `find`: the index of the first `c` in the characters left,
the first of which has index `i`; `npos` when there is none. -/
def findFrom (c : Int) : Str → Nat → Nat
  | [], _ => npos
  | x :: xs, i => if x = c then i else findFrom c xs (i + 1)

/-- `std::string::find(c, pos)`. -/
def find (s : Str) (c : Int) (pos : Nat) : Nat :=
  findFrom c (s.drop pos) pos

/-- `std::string::substr(pos, count)`. -/
def substr (s : Str) (pos count : Nat) : Except CatalogExn Str :=
  if pos > s.length then .error .outOfRange else .ok ((s.drop pos).take count)

/-- The four fields `Catalog::executeOne` parses out of a statement. -/
structure Statement where
  command : Str
  ref : Str
  a : Str
  b : Str
  deriving DecidableEq, Repr

/-- The parsing part of `Catalog::executeOne` (the lines from `size_t pos = 0`
to `string b = ...`). -/
def Catalog.parseStatement (stmt : Str) : Except CatalogExn Statement := do
  let pos := 0
  let end_ := find stmt 32 pos
  let command ← substr stmt pos (sizeSub end_ pos)
  let pos := sizeAdd end_ 1
  let end_ := find stmt 32 pos
  let ref ← substr stmt pos (sizeSub end_ pos)
  let pos := sizeAdd end_ 1
  let end_ := find stmt 32 pos
  let a ← substr stmt pos (sizeSub end_ pos)
  let pos := sizeAdd end_ 1
  let end_ := sizeAdd stmt.length 1
  let b ← substr stmt pos (sizeSub end_ pos)
  pure { command := command, ref := ref, a := a, b := b }

/-- The loop of `Catalog::splitString`, with a bound on the number of rounds:
`none` when the bound is used up. -/
def Catalog.splitStringLoop (str : Str) (delimiter : Int) :
    Nat → Nat → List Str → Option (Except CatalogExn (List Str))
  | 0, _, _ => none
  | fuel + 1, begin, vec =>
    let end_ := find str delimiter begin
    if end_ = npos then
      if begin ≠ str.length then
        match substr str begin npos with
        | .error e => some (.error e)
        | .ok piece => some (.ok (vec ++ [piece]))
      else some (.ok vec)
    else
      match substr str begin (sizeSub end_ begin) with
      | .error e => some (.error e)
      | .ok piece => Catalog.splitStringLoop str delimiter fuel (sizeAdd end_ 1) (vec ++ [piece])

/-- `Catalog::splitString(str, delimiter)`; `str.length + 1` rounds are enough. -/
def Catalog.splitString (str : Str) (delimiter : Int) : Option (Except CatalogExn (List Str)) :=
  Catalog.splitStringLoop str delimiter (str.length + 1) 0 []

/-- `toupper` in the C locale. -/
def toupper (c : Int) : Int :=
  if 97 ≤ c ∧ c ≤ 122 then c - 32 else c

/-- The conversion `static_cast<char>` of an `int`. -/
def toChar (n : Int) : Int :=
  (n + 128) % 256 - 128

/-- `hexCharToInt(c)`: "takes in 0-F, returns 0-15". -/
def hexCharToInt (c : Int) : Except CatalogExn Int :=
  let c := toChar (toupper c)
  if ¬((c ≥ 48 ∧ c ≤ 57) ∨ (c ≥ 65 ∧ c ≤ 70)) then .error .assertion
  else
    let retval := if c ≥ 65 then c - 65 + 10 else c - 48
    if ¬(retval ≥ 0 ∧ retval < 16) then .error .assertion else .ok retval

/-- The read `s[index]` of a character inside the string or the array. -/
def charAt (s : List Int) (index : Int) : Except CatalogExn Int :=
  if 0 ≤ index then
    match s[index.toNat]? with
    | some c => .ok c
    | none => .error (.outOfBounds index)
  else .error (.outOfBounds index)

/-- The write `buffer[index] = value` into a buffer of a given length. -/
def writeAt (buffer : List Int) (index : Int) (value : Int) :
    Except CatalogExn (List Int) :=
  if 0 ≤ index ∧ index.toNat < buffer.length then .ok (buffer.set index.toNat value)
  else .error (.outOfBounds index)

/-- The `for` loop of `Catalog::hexDecodeString` with `n` rounds to go, at
index `i`.  The index is an `int32_t`: `i * 2` is computed in 32 bits, so a
run ends at `i = 2^30` at the latest and `i++` never wraps. -/
def Catalog.hexDecodeLoop (hexString : Str) :
    Nat → Nat → List Int → Except CatalogExn (List Int)
  | 0, _, buffer => .ok buffer
  | n + 1, i, buffer => do
    let high ← charAt hexString (AntiCache.toInt32 (i * 2)) >>= hexCharToInt
    let low ← charAt hexString (AntiCache.toInt32 (AntiCache.toInt32 (i * 2) + 1)) >>= hexCharToInt
    let result := high * 16 + low
    if ¬(result ≥ 0 ∧ result < 256) then .error .assertion
    else do
      let buffer ← writeAt buffer (AntiCache.toInt32 i) (toChar result)
      Catalog.hexDecodeLoop hexString n (i + 1) buffer

/-- `Catalog::hexDecodeString(hexString, buffer)`: "pass in a buffer at least
half as long as the string". -/
def Catalog.hexDecodeString (hexString : Str) (buffer : List Int) :
    Except CatalogExn (List Int) := do
  let n := hexString.length / 2
  let buffer ← Catalog.hexDecodeLoop hexString n 0 buffer
  writeAt buffer (AntiCache.toInt32 n) 0

/-- `strlen`: the number of characters before the first NUL. -/
def strlen (string : List Int) : Nat :=
  (string.takeWhile fun c => c ≠ 0).length

/-- The character `sprintf(ch, "%x", v)` puts into `ch[0]` for `v` in 0..15. -/
def hexDigit (v : Int) : Int :=
  if v < 10 then 48 + v else 97 + (v - 10)

/-- The `for` loop of `Catalog::hexEncodeString` with `n` rounds to go, at
index `i`; `(string[i] >> 4) & 0xF` is `string[i] / 16 % 16` and
`string[i] & 0xF` is `string[i] % 16`, also for a negative `char`. -/
def Catalog.hexEncodeLoop (string : List Int) :
    Nat → Nat → List Int → Except CatalogExn (List Int)
  | 0, _, buffer => .ok buffer
  | n + 1, i, buffer => do
    let c ← charAt string (AntiCache.toInt32 i)
    let buffer ← writeAt buffer (AntiCache.toInt32 (i * 2)) (hexDigit (c / 16 % 16))
    let c ← charAt string (AntiCache.toInt32 i)
    let buffer ← writeAt buffer (AntiCache.toInt32 (AntiCache.toInt32 (i * 2) + 1))
      (hexDigit (c % 16))
    Catalog.hexEncodeLoop string n (i + 1) buffer

/-- `Catalog::hexEncodeString(string, buffer)`: "pass in a buffer at least
twice as long as the string". -/
def Catalog.hexEncodeString (string : List Int) (buffer : List Int) :
    Except CatalogExn (List Int) := do
  let n := strlen string
  let buffer ← Catalog.hexEncodeLoop string n 0 buffer
  writeAt buffer (AntiCache.toInt32 (n * 2)) 0

/-- `UnresolvedInfo`: the item that waits for a path and its field. -/
structure UnresolvedInfo (Item : Type) where
  type : Item
  field : Str

/-- `Catalog`: the map from paths to items, the map of unresolved references,
and the state of the items themselves (`World`; their classes are not among
the sources). -/
structure Catalog (Item World : Type) where
  m_allCatalogObjects : List (Str × Item)
  m_unresolved : List (Str × List (UnresolvedInfo Item))
  world : World

/-- The last piece dropped when it is empty. -/
def dropLastEmpty (pieces : List Str) : List Str :=
  if pieces.getLast? = some [] then pieces.dropLast else pieces

/-- Following the claim's words: the full split of `s` on `d` (`List.splitOn`:
one piece per occurrence of `d`, plus one) with the last piece dropped when it
is empty. -/
def splitDropLastEmpty (s : Str) (d : Int) : List Str :=
  dropLastEmpty (s.splitOn d)

/-- The characters the loop of `hexEncodeString` writes for `s`: two hex digits
for each character, high nibble first. -/
def hexChars : List Int → List Int
  | [] => []
  | c :: cs => hexDigit (c / 16 % 16) :: hexDigit (c % 16) :: hexChars cs

/-- A string of 2^30 characters `a`. -/
def string1GiB : List Int := List.replicate (2 ^ 30) 97

/-- A buffer of 2^31 + 1 characters. -/
def buffer2GiB : List Int := List.replicate (2 ^ 31 + 1) 0

end catalog

namespace AntiCache

/-! ## Theorems: the anti-cache block store

### Keys and values handed to the engine -/

theorem blockKey_bytes (block_id : Nat) : (blockKey block_id).bytes = uint16Bytes block_id := by
  simp [blockKey, Dbt.bytes, Dbt.set_size, Dbt.set_data, uint16Bytes]

theorem toUInt16_of_lt {n : Nat} (h : n < 65536) : toUInt16 n = n := by
  unfold toUInt16
  omega

theorem uint16Bytes_val (block_id : Nat) :
    (uint16Bytes block_id).map Fin.val
      = [toUInt16 block_id % 256, toUInt16 block_id / 256] := by
  have h : toUInt16 block_id < 65536 := by unfold toUInt16; omega
  simp only [uint16Bytes, List.map_cons, List.map_nil, Fin.ofNat, List.cons.injEq, and_true]
  omega

theorem uint16Bytes_inj {a b : Nat} (ha : a < 65536) (hb : b < 65536)
    (h : uint16Bytes a = uint16Bytes b) : a = b := by
  have h1 := uint16Bytes_val a
  rw [h, uint16Bytes_val b, toUInt16_of_lt ha, toUInt16_of_lt hb] at h1
  simp only [List.cons.injEq, and_true] at h1
  omega

/-! ### `writeBlock` and `readBlock` on the map engine -/

theorem writeBlock_mapEngine (s : AntiCacheDB DbMap) (block_id : Nat) (data : List Byte)
    (size : Int) :
    s.writeBlock mapEngine block_id data size
      = .ok { s with m_db := fun k =>
          if k = uint16Bytes block_id then some (data.take (size % 2 ^ 32).toNat)
          else s.m_db k } := by
  have h : (toInt32 size % 2 ^ 32).toNat = (size % 2 ^ 32).toNat := by
    unfold toInt32
    omega
  have hv : ((({ data := [], size := 0 } : Dbt).set_data data).set_size (toInt32 size)).bytes
      = data.take (size % 2 ^ 32).toNat := by
    simp only [Dbt.bytes, Dbt.set_size, Dbt.set_data, h]
  simp only [AntiCacheDB.writeBlock, mapEngine, blockKey_bytes, hv]

theorem readBlock_mapEngine_some (s : AntiCacheDB DbMap) (t : String) (block_id : Nat)
    (v : List Byte) (h : s.m_db (uint16Bytes block_id) = some v) :
    s.readBlock mapEngine t block_id = .ok { m_blockId := toUInt16 block_id, m_value := v } := by
  simp [AntiCacheDB.readBlock, mapEngine, blockKey_bytes, h]

theorem readBlock_mapEngine_none (s : AntiCacheDB DbMap) (t : String) (block_id : Nat)
    (h : s.m_db (uint16Bytes block_id) = none) :
    s.readBlock mapEngine t block_id
      = .error (.unknownBlockAccess t (toUInt16 block_id)) := by
  simp [AntiCacheDB.readBlock, mapEngine, blockKey_bytes, h, DB_NOTFOUND]

/-- C1. Round trip on the map engine: for every store state, every block id in
[0, 65535] and every payload `p` with `0 < |p| ≤ 2 MiB`, `writeBlock(id, p, |p|)`
succeeds and a following `readBlock(t, id)`, for any table name `t`, succeeds
with a block whose id is `id`, whose bytes are `p` and whose length is `|p|`. -/
theorem writeBlock_readBlock_roundtrip (s : AntiCacheDB DbMap) (id : Nat) (p : List Byte)
    (t : String) (hid : id ≤ 65535) (hpos : 0 < p.length) (hlen : p.length ≤ 2097152) :
    ∃ s1 b, s.writeBlock mapEngine id p (p.length : Int) = .ok s1
      ∧ s1.readBlock mapEngine t id = .ok b
      ∧ b.m_blockId = id ∧ b.m_value = p ∧ b.m_value.length = p.length := by
  have hlt : p.length < 2 ^ 32 := by omega
  have hsz : ((p.length : Int) % 2 ^ 32).toNat = p.length := by omega
  refine ⟨_, ⟨id, p⟩, writeBlock_mapEngine s id p _, ?_, rfl, rfl, rfl⟩
  rw [readBlock_mapEngine_some _ t id p]
  · rw [toUInt16_of_lt (by omega)]
  · simp only [if_true, hsz, List.take_length]

/-- C1, at the store opened in a fresh directory, block id 0, payload
`[0xAA, 0xBB, 0xCC]` and table name `"T1"`. -/
theorem writeBlock_readBlock_roundtrip_witness :
    ∃ s1 b, AntiCacheDB.writeBlock mapEngine
          { m_dbDir := "d", m_db := fun _ => none, m_nextBlockId := 0 } 0 [0xAA, 0xBB, 0xCC]
          (([0xAA, 0xBB, 0xCC] : List Byte).length : Int) = .ok s1
      ∧ s1.readBlock mapEngine "T1" 0 = .ok b
      ∧ b.m_blockId = 0 ∧ b.m_value = [0xAA, 0xBB, 0xCC]
      ∧ b.m_value.length = ([0xAA, 0xBB, 0xCC] : List Byte).length :=
  writeBlock_readBlock_roundtrip _ 0 [0xAA, 0xBB, 0xCC] "T1" (by decide) (by decide) (by decide)

theorem new_mapEngine (dir : String) : AntiCacheDB.new mapEngine dir = .ok (emptyStore dir) := rfl

theorem toUInt16_lt (n : Nat) : toUInt16 n < 65536 := by
  unfold toUInt16
  omega

theorem uint16Bytes_toUInt16 (n : Nat) : uint16Bytes (toUInt16 n) = uint16Bytes n := by
  have h : toUInt16 (toUInt16 n) = toUInt16 n := toUInt16_of_lt (toUInt16_lt n)
  simp only [uint16Bytes, h]

theorem uint16Bytes_ne {a b : Nat} (h : toUInt16 a ≠ toUInt16 b) :
    uint16Bytes a ≠ uint16Bytes b := by
  intro heq
  rw [← uint16Bytes_toUInt16 a, ← uint16Bytes_toUInt16 b] at heq
  exact h (uint16Bytes_inj (toUInt16_lt a) (toUInt16_lt b) heq)

theorem writeBlocks_append {σ : Type} (eng : Engine σ) (ws : List WriteCall) :
    ∀ (s : AntiCacheDB σ) (w : WriteCall),
      AntiCacheDB.writeBlocks eng s (ws ++ [w])
        = match AntiCacheDB.writeBlocks eng s ws with
          | .error e => .error e
          | .ok s1 => s1.writeBlock eng w.block_id w.data w.size := by
  induction ws with
  | nil =>
    intro s w
    simp only [List.nil_append, AntiCacheDB.writeBlocks]
    cases s.writeBlock eng w.block_id w.data w.size <;> rfl
  | cons v vs ih =>
    intro s w
    simp only [List.cons_append, AntiCacheDB.writeBlocks]
    cases s.writeBlock eng v.block_id v.data v.size with
    | error e => rfl
    | ok s1 => exact ih s1 w

/-- Writes on the map engine succeed and leave alone every key that none of
them names. -/
theorem writeBlocks_mapEngine_frame (ws : List WriteCall) :
    ∀ (s : AntiCacheDB DbMap) (id : Nat), (∀ w ∈ ws, toUInt16 w.block_id ≠ toUInt16 id) →
      ∃ s1, AntiCacheDB.writeBlocks mapEngine s ws = .ok s1
        ∧ s1.m_db (uint16Bytes id) = s.m_db (uint16Bytes id) := by
  induction ws with
  | nil => intro s id _; exact ⟨s, rfl, rfl⟩
  | cons w ws ih =>
    intro s id h
    simp only [AntiCacheDB.writeBlocks, writeBlock_mapEngine]
    obtain ⟨s1, h1, h2⟩ := ih _ id (fun v hv => h v (List.mem_cons_of_mem _ hv))
    refine ⟨s1, h1, ?_⟩
    rw [h2]
    have hne : uint16Bytes id ≠ uint16Bytes w.block_id :=
      fun e => uint16Bytes_ne (h w (List.mem_cons_self _ _)) e.symm
    simp only [hne, if_false]

/-- C2. Unknown block on the map engine: on the store reached from a freshly
opened one by any sequence of writes, for every table name and every block id
(a 16-bit id) that none of these writes wrote, `readBlock(name, id)` returns
no block and fails with `UnknownBlockAccessException` carrying exactly that
table name and that block id. -/
theorem readBlock_never_written (dir name : String) (ws : List WriteCall) (id : Nat)
    (hid : id < 65536) (hnever : ∀ w ∈ ws, toUInt16 w.block_id ≠ id) :
    ∃ s0 s, AntiCacheDB.new mapEngine dir = .ok s0
      ∧ AntiCacheDB.writeBlocks mapEngine s0 ws = .ok s
      ∧ s.readBlock mapEngine name id = .error (.unknownBlockAccess name id) := by
  have h : ∀ w ∈ ws, toUInt16 w.block_id ≠ toUInt16 id := by
    intro w hw
    rw [toUInt16_of_lt hid]
    exact hnever w hw
  obtain ⟨s, h1, h2⟩ := writeBlocks_mapEngine_frame ws (emptyStore dir) id h
  refine ⟨emptyStore dir, s, new_mapEngine dir, h1, ?_⟩
  rw [readBlock_mapEngine_none s name id (by rw [h2]; rfl), toUInt16_of_lt hid]

/-- C2, at the store to which ids 0 and 65536 + 3 were written, read with table
name `"Orders"` and block id 7. -/
theorem readBlock_never_written_witness :
    ∃ s0 s, AntiCacheDB.new mapEngine "d" = .ok s0
      ∧ AntiCacheDB.writeBlocks mapEngine s0
          [{ block_id := 0, data := [1, 2], size := 2 },
           { block_id := 65539, data := [3], size := 1 }] = .ok s
      ∧ s.readBlock mapEngine "Orders" 7 = .error (.unknownBlockAccess "Orders" 7) :=
  readBlock_never_written "d" "Orders" _ 7 (by decide) (by decide)

theorem payload4GiB_length : payload4GiB.length = 2 ^ 32 := by
  unfold payload4GiB
  exact List.length_replicate _ _

theorem payload4GiB_ne_nil : payload4GiB ≠ [] := by
  intro h
  have h1 := congrArg List.length h
  rw [payload4GiB_length] at h1
  exact absurd h1 (by decide)

/-- C3, counterexample. On the empty store, after `writeBlock(0, [1], 1)` and
then `writeBlock(0, p2, |p2|)` with `p2` a payload of 2^32 bytes, the size is
converted to 32 bits and becomes 0: `readBlock("T", 0)` returns no bytes, not
`p2`. -/
theorem overwrite_4GiB_counterexample :
    ∃ s1 s2 b, (emptyStore "d").writeBlock mapEngine 0 [1] (([1] : List Byte).length : Int) = .ok s1
      ∧ s1.writeBlock mapEngine 0 payload4GiB (payload4GiB.length : Int) = .ok s2
      ∧ s2.readBlock mapEngine "T" 0 = .ok b
      ∧ b.m_value = [] ∧ b.m_value ≠ payload4GiB := by
  have hsz : ((payload4GiB.length : Int) % 2 ^ 32).toNat = 0 := by
    rw [payload4GiB_length]
    decide
  refine ⟨_, _, ⟨0, []⟩, writeBlock_mapEngine _ _ _ _, writeBlock_mapEngine _ _ _ _, ?_, rfl,
    fun h => payload4GiB_ne_nil h.symm⟩
  rw [readBlock_mapEngine_some _ "T" 0 []]
  · rfl
  · simp only [if_true, hsz, List.take_zero]

/-- C3, amended. Overwrite wins for sizes that fit the engine's 32-bit size:
for every store state on the map engine, every block id, every payload `p1` of
whatever length and every payload `p2` with `|p2| < 2^32`, after
`writeBlock(id, p1, |p1|)` followed by `writeBlock(id, p2, |p2|)`,
`readBlock(t, id)` returns the block with that id and bytes `p2`. -/
theorem overwrite_wins (s : AntiCacheDB DbMap) (id : Nat) (p1 p2 : List Byte) (t : String)
    (hid : id < 65536) (hlen : p2.length < 2 ^ 32) :
    ∃ s1 s2, s.writeBlock mapEngine id p1 (p1.length : Int) = .ok s1
      ∧ s1.writeBlock mapEngine id p2 (p2.length : Int) = .ok s2
      ∧ s2.readBlock mapEngine t id = .ok { m_blockId := id, m_value := p2 } := by
  have hsz : ((p2.length : Int) % 2 ^ 32).toNat = p2.length := by omega
  refine ⟨_, _, writeBlock_mapEngine _ _ _ _, writeBlock_mapEngine _ _ _ _, ?_⟩
  rw [readBlock_mapEngine_some _ t id p2]
  · rw [toUInt16_of_lt hid]
  · simp only [if_true, hsz, List.take_length]

/-- C3 amended, at id 5 with a longer first payload and a shorter second one. -/
theorem overwrite_wins_witness :
    ∃ s1 s2, (emptyStore "d").writeBlock mapEngine 5 [1, 2, 3] (([1, 2, 3] : List Byte).length : Int)
        = .ok s1
      ∧ s1.writeBlock mapEngine 5 [9] (([9] : List Byte).length : Int) = .ok s2
      ∧ s2.readBlock mapEngine "T" 5 = .ok { m_blockId := 5, m_value := [9] } :=
  overwrite_wins (emptyStore "d") 5 [1, 2, 3] [9] "T" (by decide) (by decide)

theorem readBlock_mapEngine_congr (s1 s2 : AntiCacheDB DbMap) (t : String) (id : Nat)
    (h : s1.m_db (uint16Bytes id) = s2.m_db (uint16Bytes id)) :
    s1.readBlock mapEngine t id = s2.readBlock mapEngine t id := by
  simp only [AntiCacheDB.readBlock, mapEngine, blockKey_bytes, h]

theorem writesUpTo_succ (f : Nat → List Byte) (n : Nat) :
    writesUpTo f (n + 1)
      = writesUpTo f n ++ [{ block_id := n, data := f n, size := ((f n).length : Int) }] := by
  simp only [writesUpTo, List.range_succ, List.map_append, List.map_cons, List.map_nil]

/-- After the writes of ids `0, ..., n-1` to the empty store, every one of
these ids is bound to its own payload. -/
theorem writesUpTo_db (dir : String) (f : Nat → List Byte) (n : Nat) (hn : n ≤ 65536)
    (hf : ∀ j < n, (f j).length < 2 ^ 32) :
    ∃ sn, AntiCacheDB.writeBlocks mapEngine (emptyStore dir) (writesUpTo f n) = .ok sn
      ∧ ∀ j < n, sn.m_db (uint16Bytes j) = some (f j) := by
  induction n with
  | zero => exact ⟨emptyStore dir, rfl, fun j hj => absurd hj (Nat.not_lt_zero j)⟩
  | succ n ih =>
    obtain ⟨sn, hw, hdb⟩ := ih (by omega) (fun j hj => hf j (by omega))
    have hsz : (((f n).length : Int) % 2 ^ 32).toNat = (f n).length := by
      have := hf n (by omega)
      omega
    have hw1 := writeBlock_mapEngine sn n (f n) ((f n).length : Int)
    have hall : AntiCacheDB.writeBlocks mapEngine (emptyStore dir) (writesUpTo f (n + 1))
        = sn.writeBlock mapEngine n (f n) ((f n).length : Int) := by
      rw [writesUpTo_succ, writeBlocks_append, hw]
    refine ⟨_, hall.trans hw1, ?_⟩
    intro j hj
    by_cases hjn : j = n
    · subst hjn
      simp only [if_true, hsz, List.take_length]
    · have hne : uint16Bytes j ≠ uint16Bytes n := by
        apply uint16Bytes_ne
        rw [toUInt16_of_lt (by omega), toUInt16_of_lt (by omega)]
        exact hjn
      simp only [hne, if_false]
      exact hdb j (by omega)

/-- C4, counterexample. After the one write of id 0 with a payload of 2^32
bytes to a freshly opened store (the writes of ids `0, ..., n-1` for `n = 1`),
reading id 0 returns no bytes, not the payload of id 0: the size is converted
to 32 bits and becomes 0. -/
theorem distinct_ids_4GiB_counterexample :
    ∃ s0 sn b, AntiCacheDB.new mapEngine "d" = .ok s0
      ∧ AntiCacheDB.writeBlocks mapEngine s0 (writesUpTo (fun _ => payload4GiB) 1) = .ok sn
      ∧ sn.readBlock mapEngine "T" 0 = .ok b
      ∧ b.m_blockId = 0 ∧ b.m_value = [] ∧ b.m_value ≠ payload4GiB := by
  have hsz : ((payload4GiB.length : Int) % 2 ^ 32).toNat = 0 := by
    rw [payload4GiB_length]
    decide
  have hw : writesUpTo (fun _ => payload4GiB) 1
      = [{ block_id := 0, data := payload4GiB, size := (payload4GiB.length : Int) }] :=
    writesUpTo_succ (fun _ => payload4GiB) 0
  have hrun : AntiCacheDB.writeBlocks mapEngine (emptyStore "d")
      [{ block_id := 0, data := payload4GiB, size := (payload4GiB.length : Int) }]
      = (emptyStore "d").writeBlock mapEngine 0 payload4GiB (payload4GiB.length : Int) :=
    writeBlocks_append mapEngine [] (emptyStore "d") _
  have hall := (hw ▸ hrun).trans
    (writeBlock_mapEngine (emptyStore "d") 0 payload4GiB (payload4GiB.length : Int))
  refine ⟨emptyStore "d", _, ⟨0, []⟩, new_mapEngine "d", hall, ?_, rfl, rfl,
    fun h => payload4GiB_ne_nil h.symm⟩
  rw [readBlock_mapEngine_some _ "T" 0 []]
  · rfl
  · simp only [if_true, hsz, List.take_zero]

/-- C4, amended. Writes to distinct ids do not disturb each other, on the map
engine.  The key `writeBlock` and `readBlock` build for a 16-bit id is its
2-byte encoding, distinct ids have distinct keys, and for `id1 ≠ id2` a
`writeBlock(id2, q, size)` leaves the result of `readBlock(t, id1)` as it was.
After the writes of ids `0, ..., n-1` in this order to a freshly opened store
(`n ≤ 65536`), with payloads shorter than 2^32 bytes, reading ids below `n` in
any order returns each id with its own payload. -/
theorem distinct_ids_frame (s : AntiCacheDB DbMap) (id1 id2 : Nat) (q : List Byte) (size : Int)
    (t dir : String) (f : Nat → List Byte) (n : Nat) (order : List Nat)
    (h1 : id1 < 65536) (h2 : id2 < 65536) (hne : id1 ≠ id2) (hn : n ≤ 65536)
    (hf : ∀ j < n, (f j).length < 2 ^ 32) (horder : ∀ j ∈ order, j < n) :
    (blockKey id1).bytes.map Fin.val = [id1 % 256, id1 / 256]
      ∧ (blockKey id1).bytes ≠ (blockKey id2).bytes
      ∧ (∃ s1, s.writeBlock mapEngine id2 q size = .ok s1
          ∧ s1.readBlock mapEngine t id1 = s.readBlock mapEngine t id1)
      ∧ (∃ s0 sn, AntiCacheDB.new mapEngine dir = .ok s0
          ∧ AntiCacheDB.writeBlocks mapEngine s0 (writesUpTo f n) = .ok sn
          ∧ order.map (fun j => sn.readBlock mapEngine t j)
              = order.map (fun j => .ok { m_blockId := j, m_value := f j })) := by
  have hkey : uint16Bytes id1 ≠ uint16Bytes id2 := by
    apply uint16Bytes_ne
    rw [toUInt16_of_lt h1, toUInt16_of_lt h2]
    exact hne
  refine ⟨?_, ?_, ?_, ?_⟩
  · rw [blockKey_bytes, uint16Bytes_val, toUInt16_of_lt h1]
  · rw [blockKey_bytes, blockKey_bytes]
    exact hkey
  · refine ⟨_, writeBlock_mapEngine s id2 q size, ?_⟩
    apply readBlock_mapEngine_congr
    simp only [hkey, if_false]
  · obtain ⟨sn, hw, hdb⟩ := writesUpTo_db dir f n hn hf
    refine ⟨emptyStore dir, sn, new_mapEngine dir, hw, ?_⟩
    apply List.map_congr_left
    intro j hj
    have hjn := horder j hj
    rw [readBlock_mapEngine_some sn t j (f j) (hdb j hjn), toUInt16_of_lt (by omega)]

/-- C4 amended, at ids 1 and 258 (same low byte), and at three writes read back in
reverse order. -/
theorem distinct_ids_frame_witness :
    (blockKey 1).bytes.map Fin.val = [1 % 256, 1 / 256]
      ∧ (blockKey 1).bytes ≠ (blockKey 258).bytes
      ∧ (∃ s1, (emptyStore "d").writeBlock mapEngine 258 [7] 1 = .ok s1
          ∧ s1.readBlock mapEngine "T" 1 = (emptyStore "d").readBlock mapEngine "T" 1)
      ∧ (∃ s0 sn, AntiCacheDB.new mapEngine "d" = .ok s0
          ∧ AntiCacheDB.writeBlocks mapEngine s0 (writesUpTo (fun j => [Fin.ofNat j]) 3) = .ok sn
          ∧ [2, 1, 0].map (fun j => sn.readBlock mapEngine "T" j)
              = [2, 1, 0].map (fun j => .ok { m_blockId := j, m_value := [Fin.ofNat j] })) :=
  distinct_ids_frame (emptyStore "d") 1 258 [7] 1 "T" "d" (fun j => [Fin.ofNat j]) 3 [2, 1, 0]
    (by decide) (by decide) (by decide) (by decide)
    (fun _ _ => by simp) (by decide)

/-! ### `readBlock` by what `get` does -/

theorem readBlock_of_thrown {σ : Type} (eng : Engine σ) (s : AntiCacheDB σ) (t : String)
    (id : Nat) (what : String) (h : eng.get s.m_db (blockKey id).bytes = .thrown what) :
    s.readBlock eng t id = .error (.dbException what) := by
  simp only [AntiCacheDB.readBlock, h]

theorem readBlock_of_status {σ : Type} (eng : Engine σ) (s : AntiCacheDB σ) (t : String)
    (id : Nat) (ret : Int) (out : Option (List Byte))
    (h : eng.get s.m_db (blockKey id).bytes = .returned ret out) (hret : ret ≠ 0) :
    s.readBlock eng t id = .error (.unknownBlockAccess t (toUInt16 id)) := by
  simp only [AntiCacheDB.readBlock, h, hret, ne_eq, not_false_eq_true, if_true]

theorem readBlock_of_found {σ : Type} (eng : Engine σ) (s : AntiCacheDB σ) (t : String)
    (id : Nat) (bytes : List Byte)
    (h : eng.get s.m_db (blockKey id).bytes = .returned 0 (some bytes)) :
    s.readBlock eng t id = .ok { m_blockId := toUInt16 id, m_value := bytes } := by
  simp only [AntiCacheDB.readBlock, h, ne_eq, not_true_eq_false, if_false]

theorem readBlock_of_null {σ : Type} (eng : Engine σ) (s : AntiCacheDB σ) (t : String)
    (id : Nat) (h : eng.get s.m_db (blockKey id).bytes = .returned 0 none) :
    s.readBlock eng t id = .error .assertion := by
  simp only [AntiCacheDB.readBlock, h, ne_eq, not_true_eq_false, if_false]

/-- C5. The table name is not part of the key: for every engine, every store
state, every block id and every two table names, the two reads either both
succeed with the same block (same id, same bytes) or both fail, and the two
failures are the same or are the two `UnknownBlockAccessException`s that differ
in the table name only. -/
theorem readBlock_tableName_only_in_error {σ : Type} (eng : Engine σ) (s : AntiCacheDB σ)
    (id : Nat) (t1 t2 : String) :
    (∃ b, s.readBlock eng t1 id = .ok b ∧ s.readBlock eng t2 id = .ok b)
      ∨ (∃ e1 e2, s.readBlock eng t1 id = .error e1 ∧ s.readBlock eng t2 id = .error e2
          ∧ (e1 = e2 ∨ ∃ b, e1 = .unknownBlockAccess t1 b ∧ e2 = .unknownBlockAccess t2 b)) := by
  cases h : eng.get s.m_db (blockKey id).bytes with
  | thrown what =>
    exact Or.inr ⟨_, _, readBlock_of_thrown eng s t1 id what h,
      readBlock_of_thrown eng s t2 id what h, Or.inl rfl⟩
  | returned ret value =>
    by_cases hret : ret = 0
    · subst hret
      cases value with
      | none =>
        exact Or.inr ⟨_, _, readBlock_of_null eng s t1 id h, readBlock_of_null eng s t2 id h,
          Or.inl rfl⟩
      | some bytes =>
        exact Or.inl ⟨_, readBlock_of_found eng s t1 id bytes h,
          readBlock_of_found eng s t2 id bytes h⟩
    · exact Or.inr ⟨_, _, readBlock_of_status eng s t1 id ret value h hret,
        readBlock_of_status eng s t2 id ret value h hret, Or.inr ⟨_, rfl, rfl⟩⟩

/-! ### Engine failures -/

/-- C6, the code at the failing input. When the engine's `get` throws
`DbException` (a failure of the lookup that is not a miss), nothing in
`readBlock` catches it: `readBlock("Orders", 7)` ends with that `DbException`,
not with the fatal exception. -/
theorem readBlock_get_exception :
    AntiCacheDB.readBlock
        (scriptedEngine (.returned 0 ()) (.thrown "Input/output error") (.returned 0 ())
          (.returned 0 ()))
        { m_dbDir := "d", m_db := (), m_nextBlockId := 0 } "Orders" 7
      = .error (.dbException "Input/output error")
      ∧ ¬ ∃ msg, AntiCacheDB.readBlock
        (scriptedEngine (.returned 0 ()) (.thrown "Input/output error") (.returned 0 ())
          (.returned 0 ()))
        { m_dbDir := "d", m_db := (), m_nextBlockId := 0 } "Orders" 7
      = .error (.fatal msg) := by
  refine ⟨rfl, ?_⟩
  rintro ⟨msg, h⟩
  exact Exn.noConfusion (Except.error.inj h)

/-- C7, the code at the failing inputs. When the engine's `put` throws
`DbException`, `writeBlock` ends with that `DbException`, not with the fatal
exception; when `put` returns the status 28 (`ENOSPC`), `writeBlock` returns
as if the write had been done. -/
theorem writeBlock_put_failure :
    AntiCacheDB.writeBlock
        (scriptedEngine (.thrown "No space left on device") (.returned 0 none) (.returned 0 ())
          (.returned 0 ()))
        { m_dbDir := "d", m_db := (), m_nextBlockId := 0 } 0 [0xAA] 1
      = .error (.dbException "No space left on device")
      ∧ AntiCacheDB.writeBlock
        (scriptedEngine (.returned 28 ()) (.returned 0 none) (.returned 0 ()) (.returned 0 ()))
        { m_dbDir := "d", m_db := (), m_nextBlockId := 0 } 0 [0xAA] 1
      = .ok { m_dbDir := "d", m_db := (), m_nextBlockId := 0 } :=
  ⟨rfl, rfl⟩

/-! ### The destructor -/

theorem destroy_of_dbClose_thrown {σ : Type} (eng : Engine σ) (s : AntiCacheDB σ) (what : String)
    (h : eng.dbClose s.m_db = .thrown what) :
    s.destroy eng
      = ([.dbClose], .error (.fatal ("Failed to close anti-cache database: " ++ what))) := by
  simp only [AntiCacheDB.destroy, h, throwFatalException]

theorem destroy_of_envClose_thrown {σ : Type} (eng : Engine σ) (s : AntiCacheDB σ) (ret : Int)
    (u : Unit) (what : String) (h1 : eng.dbClose s.m_db = .returned ret u)
    (h2 : eng.envClose s.m_db = .thrown what) :
    s.destroy eng
      = ([.dbClose, .deleteDb, .envClose],
          .error (.fatal ("Failed to close anti-cache database environment: " ++ what))) := by
  simp only [AntiCacheDB.destroy, h1, h2, throwFatalException, List.cons_append, List.nil_append]

theorem destroy_of_returned {σ : Type} (eng : Engine σ) (s : AntiCacheDB σ) (r1 r2 : Int)
    (u1 u2 : Unit) (h1 : eng.dbClose s.m_db = .returned r1 u1)
    (h2 : eng.envClose s.m_db = .returned r2 u2) :
    s.destroy eng = ([.dbClose, .deleteDb, .envClose, .deleteEnv], .ok ()) := by
  simp only [AntiCacheDB.destroy, h1, h2, List.cons_append, List.nil_append]

/-- The calls of a destructor run are one of three lists. -/
theorem destroy_calls {σ : Type} (eng : Engine σ) (s : AntiCacheDB σ) :
    (s.destroy eng).1 = [.dbClose]
      ∨ (s.destroy eng).1 = [.dbClose, .deleteDb, .envClose]
      ∨ (s.destroy eng).1 = [.dbClose, .deleteDb, .envClose, .deleteEnv] := by
  cases h1 : eng.dbClose s.m_db with
  | thrown what => exact Or.inl (by rw [destroy_of_dbClose_thrown eng s what h1])
  | returned r1 u1 =>
    cases h2 : eng.envClose s.m_db with
    | thrown what => exact Or.inr (Or.inl (by rw [destroy_of_envClose_thrown eng s r1 u1 what h1 h2]))
    | returned r2 u2 => exact Or.inr (Or.inr (by rw [destroy_of_returned eng s r1 r2 u1 u2 h1 h2]))

/-- C8, counterexample. In a run in which the database close throws, the
destructor ends with the fatal exception after the one call `Db::close`: the
environment close is not attempted. -/
theorem destroy_skips_envClose_counterexample :
    EngineCall.envClose ∉
        (AntiCacheDB.destroy
          (scriptedEngine (.returned 0 ()) (.returned 0 none) (.thrown "DB_RUNRECOVERY")
            (.returned 0 ()))
          { m_dbDir := "d", m_db := (), m_nextBlockId := 0 }).1
      ∧ AntiCacheDB.destroy
          (scriptedEngine (.returned 0 ()) (.returned 0 none) (.thrown "DB_RUNRECOVERY")
            (.returned 0 ()))
          { m_dbDir := "d", m_db := (), m_nextBlockId := 0 }
        = ([.dbClose], .error (.fatal "Failed to close anti-cache database: DB_RUNRECOVERY")) := by
  refine ⟨?_, rfl⟩
  rw [destroy_of_dbClose_thrown _ _ "DB_RUNRECOVERY" rfl]
  decide

/-- C8, amended. When the store is destroyed the database close is the first
call, and every environment close comes after it.  When the database close
throws, the failure is reported as fatal and the environment close is not
attempted.  When the database close returns, the environment close is
attempted, and when that one throws the failure is reported as fatal. -/
theorem destroy_close_protocol {σ : Type} (eng : Engine σ) (s : AntiCacheDB σ) :
    (s.destroy eng).1.head? = some .dbClose
      ∧ (∀ i j : Nat, (s.destroy eng).1[i]? = some EngineCall.envClose →
          (s.destroy eng).1[j]? = some EngineCall.dbClose → j < i)
      ∧ (∀ what, eng.dbClose s.m_db = .thrown what →
          EngineCall.envClose ∉ (s.destroy eng).1
            ∧ (s.destroy eng).2
              = .error (.fatal ("Failed to close anti-cache database: " ++ what)))
      ∧ (∀ ret u, eng.dbClose s.m_db = .returned ret u →
          EngineCall.envClose ∈ (s.destroy eng).1
            ∧ ∀ what, eng.envClose s.m_db = .thrown what →
              (s.destroy eng).2
                = .error (.fatal ("Failed to close anti-cache database environment: " ++ what))) := by
  refine ⟨?_, ?_, ?_, ?_⟩
  · rcases destroy_calls eng s with h | h | h <;> rw [h] <;> rfl
  · intro i j hi hj
    rcases destroy_calls eng s with h | h | h <;> rw [h] at hi hj
    · rcases i with _ | i
      · exact absurd hi (by decide)
      · simp at hi
    · rcases j with _ | _ | _ | j
      · rcases i with _ | i
        · exact absurd hi (by decide)
        · omega
      · exact absurd hj (by decide)
      · exact absurd hj (by decide)
      · simp at hj
    · rcases j with _ | _ | _ | _ | j
      · rcases i with _ | i
        · exact absurd hi (by decide)
        · omega
      · exact absurd hj (by decide)
      · exact absurd hj (by decide)
      · exact absurd hj (by decide)
      · simp at hj
  · intro what h
    rw [destroy_of_dbClose_thrown eng s what h]
    exact ⟨by simp, rfl⟩
  · intro ret u h
    cases h2 : eng.envClose s.m_db with
    | thrown what =>
      rw [destroy_of_envClose_thrown eng s ret u what h h2]
      refine ⟨by simp, fun w hw => ?_⟩
      cases hw
      rfl
    | returned r2 u2 =>
      rw [destroy_of_returned eng s ret r2 u u2 h h2]
      exact ⟨by simp, fun w hw => by cases hw⟩

/-- C8 amended, at an engine whose database close returns and whose
environment close throws. -/
theorem destroy_close_protocol_witness :
    EngineCall.envClose ∈
        (AntiCacheDB.destroy
          (scriptedEngine (.returned 0 ()) (.returned 0 none) (.returned 0 ()) (.thrown "EBUSY"))
          { m_dbDir := "d", m_db := (), m_nextBlockId := 0 }).1
      ∧ ∀ what, (scriptedEngine (.returned 0 ()) (.returned 0 none) (.returned 0 ())
            (.thrown "EBUSY")).envClose () = .thrown what →
          (AntiCacheDB.destroy
            (scriptedEngine (.returned 0 ()) (.returned 0 none) (.returned 0 ()) (.thrown "EBUSY"))
            { m_dbDir := "d", m_db := (), m_nextBlockId := 0 }).2
          = .error (.fatal ("Failed to close anti-cache database environment: " ++ what)) :=
  (destroy_close_protocol
    (scriptedEngine (.returned 0 ()) (.returned 0 none) (.returned 0 ()) (.thrown "EBUSY"))
    { m_dbDir := "d", m_db := (), m_nextBlockId := 0 }).2.2.2 0 () rfl

/-! ### The block id counter -/

theorem new_counter {σ : Type} (eng : Engine σ) (dir : String) (s0 : AntiCacheDB σ)
    (h : AntiCacheDB.new eng dir = .ok s0) : s0.m_nextBlockId = 0 := by
  unfold AntiCacheDB.new at h
  cases h1 : eng.envOpen dir with
  | thrown what =>
    rw [h1] at h
    exact Except.noConfusion h
  | returned r u =>
    rw [h1] at h
    cases h2 : eng.dbOpen "anticache.db" with
    | thrown what =>
      rw [h2] at h
      exact Except.noConfusion h
    | returned r2 db =>
      rw [h2] at h
      cases h
      rfl

theorem writeBlock_counter {σ : Type} (eng : Engine σ) (s s1 : AntiCacheDB σ) (id : Nat)
    (data : List Byte) (size : Int) (h : s.writeBlock eng id data size = .ok s1) :
    s1.m_nextBlockId = s.m_nextBlockId := by
  unfold AntiCacheDB.writeBlock at h
  simp only at h
  split at h
  · exact Except.noConfusion h
  · cases h
    rfl

theorem writeBlocks_counter {σ : Type} (eng : Engine σ) (ws : List WriteCall) :
    ∀ s sk : AntiCacheDB σ, AntiCacheDB.writeBlocks eng s ws = .ok sk →
      sk.m_nextBlockId = s.m_nextBlockId := by
  induction ws with
  | nil =>
    intro s sk h
    cases h
    rfl
  | cons w ws ih =>
    intro s sk h
    simp only [AntiCacheDB.writeBlocks] at h
    cases hw : s.writeBlock eng w.block_id w.data w.size with
    | error e =>
      rw [hw] at h
      exact Except.noConfusion h
    | ok s1 =>
      rw [hw] at h
      rw [ih s1 sk h, writeBlock_counter eng s s1 _ _ _ hw]

/-- C10, counterexample. On a freshly opened store, a successful
`writeBlock(0, [0xAA], 1)` leaves the next-block-id counter at 0: it is not
increased by 1. -/
theorem writeBlock_counter_counterexample :
    ∃ s0 s1, AntiCacheDB.new mapEngine "d" = .ok s0
      ∧ s0.writeBlock mapEngine 0 [0xAA] 1 = .ok s1
      ∧ s0.m_nextBlockId = 0 ∧ s1.m_nextBlockId = 0
      ∧ s1.m_nextBlockId ≠ s0.m_nextBlockId + 1 :=
  ⟨emptyStore "d", _, rfl, writeBlock_mapEngine _ _ _ _, rfl, rfl, by decide⟩

/-- C10, amended. `writeBlock` does not touch the allocator: for every engine,
store state, block id and payload, a successful `writeBlock` leaves the
store's next-block-id counter as it was; the counter is 0 on a fresh store
and is still 0 after any number of successful writes to it. -/
theorem writeBlock_keeps_counter {σ : Type} (eng : Engine σ) (dir : String)
    (s s1 s0 sk : AntiCacheDB σ) (id : Nat) (data : List Byte) (size : Int) (ws : List WriteCall)
    (hwrite : s.writeBlock eng id data size = .ok s1)
    (hopen : AntiCacheDB.new eng dir = .ok s0)
    (hwrites : AntiCacheDB.writeBlocks eng s0 ws = .ok sk) :
    s1.m_nextBlockId = s.m_nextBlockId ∧ s0.m_nextBlockId = 0 ∧ sk.m_nextBlockId = 0 := by
  have h0 := new_counter eng dir s0 hopen
  exact ⟨writeBlock_counter eng s s1 id data size hwrite, h0,
    (writeBlocks_counter eng ws s0 sk hwrites).trans h0⟩

/-- C10 amended, at a write to a store whose counter is 41 and at two writes
to a fresh store. -/
theorem writeBlock_keeps_counter_witness :
    ∃ s1 s0 sk,
      AntiCacheDB.writeBlock mapEngine
          { m_dbDir := "d", m_db := fun _ => none, m_nextBlockId := 41 } 7 [1, 2] 2 = .ok s1
      ∧ AntiCacheDB.new mapEngine "d" = .ok s0
      ∧ AntiCacheDB.writeBlocks mapEngine s0
          [{ block_id := 0, data := [1], size := 1 }, { block_id := 1, data := [2], size := 1 }]
        = .ok sk
      ∧ s1.m_nextBlockId = 41 ∧ s0.m_nextBlockId = 0 ∧ sk.m_nextBlockId = 0 :=
  ⟨_, _, _, rfl, rfl, rfl,
    writeBlock_keeps_counter mapEngine "d"
      { m_dbDir := "d", m_db := fun _ => none, m_nextBlockId := 41 } _ _ _ 7 [1, 2] 2
      [{ block_id := 0, data := [1], size := 1 }, { block_id := 1, data := [2], size := 1 }]
      rfl rfl rfl⟩

end AntiCache

/-! ## Theorems: the catalog -/

namespace catalog

/-! ### The `Except` monad -/

theorem bind_ok {ε α β : Type} (a : α) (f : α → Except ε β) :
    (Except.ok a : Except ε α) >>= f = f a := rfl

theorem bind_error {ε α β : Type} (e : ε) (f : α → Except ε β) :
    (Except.error e : Except ε α) >>= f = .error e := rfl

theorem pure_ok {ε α : Type} (a : α) : (pure a : Except ε α) = .ok a := rfl

theorem findFrom_append_cons (c : Int) (x post : Str) (h : c ∉ x) :
    ∀ i, findFrom c (x ++ c :: post) i = i + x.length := by
  induction x with
  | nil => intro i; simp [findFrom]
  | cons y ys ih =>
    intro i
    have hy : y ≠ c := fun e => h (by simp [e])
    have hys : c ∉ ys := fun e => h (List.mem_cons_of_mem _ e)
    rw [List.cons_append, findFrom, if_neg hy, ih hys, List.length_cons]
    omega

theorem findFrom_not_mem (c : Int) (x : Str) (h : c ∉ x) : ∀ i, findFrom c x i = npos := by
  induction x with
  | nil => intro i; rfl
  | cons y ys ih =>
    intro i
    have hy : y ≠ c := fun e => h (by simp [e])
    have hys : c ∉ ys := fun e => h (List.mem_cons_of_mem _ e)
    rw [findFrom, if_neg hy, ih hys]

theorem find_field (c : Int) (s pre x post : Str) (pos : Nat) (h : c ∉ x)
    (hs : s = pre ++ (x ++ c :: post)) (hpos : pos = pre.length) :
    find s c pos = pos + x.length := by
  subst hs hpos
  simp only [find, List.drop_left, findFrom_append_cons c x post h]

theorem find_last (c : Int) (s pre x : Str) (pos : Nat) (h : c ∉ x)
    (hs : s = pre ++ x) (hpos : pos = pre.length) :
    find s c pos = npos := by
  subst hs hpos
  simp only [find, List.drop_left, findFrom_not_mem c x h]

theorem substr_field (s pre x post : Str) (pos count : Nat)
    (hs : s = pre ++ (x ++ post)) (hpos : pos = pre.length) (h : count = x.length) :
    substr s pos count = .ok x := by
  subst hs hpos
  have hle : ¬ pre.length > (pre ++ (x ++ post)).length := by
    simp only [List.length_append]
    omega
  simp only [substr, hle, if_false, List.drop_left, h, List.take_left]

theorem substr_last (s pre x : Str) (pos count : Nat)
    (hs : s = pre ++ x) (hpos : pos = pre.length) (h : x.length ≤ count) :
    substr s pos count = .ok x := by
  subst hs hpos
  have hle : ¬ pre.length > (pre ++ x).length := by
    simp only [List.length_append]
    omega
  simp only [substr, hle, if_false, List.drop_left, List.take_of_length_le h]

/-- C13. Statement parsing follows the format `command ref a b`: for every
statement `c ++ " " ++ r ++ " " ++ a ++ " " ++ b` (a `std::string`, so shorter
than `npos`) in which `c`, `r` and `a` contain no space, the parse of
`Catalog::executeOne` gives command `c`, ref `r`, first argument `a` and second
argument `b`, the whole rest of the line, with spaces or empty. -/
theorem parseStatement_four_fields (c r a b : Str) (hc : (32 : Int) ∉ c)
    (hr : (32 : Int) ∉ r) (ha : (32 : Int) ∉ a)
    (hlen : (c ++ [32] ++ r ++ [32] ++ a ++ [32] ++ b).length < npos) :
    Catalog.parseStatement (c ++ [32] ++ r ++ [32] ++ a ++ [32] ++ b)
      = .ok { command := c, ref := r, a := a, b := b } := by
  simp only [List.length_append, List.length_singleton, npos] at hlen
  generalize hs : c ++ [32] ++ r ++ [32] ++ a ++ [32] ++ b = stmt
  have hsl : stmt.length = c.length + r.length + a.length + b.length + 3 := by
    rw [← hs]
    simp only [List.length_append, List.length_singleton]
    omega
  have f0 : find stmt 32 0 = c.length := by
    rw [find_field 32 stmt [] c (r ++ 32 :: (a ++ 32 :: b)) 0 hc (by simp [← hs]) rfl]
    omega
  have s0 : substr stmt 0 c.length = .ok c :=
    substr_field stmt [] c (32 :: (r ++ 32 :: (a ++ 32 :: b))) 0 _ (by simp [← hs]) rfl rfl
  have f1 : find stmt 32 (c.length + 1) = c.length + 1 + r.length :=
    find_field 32 stmt (c ++ [32]) r (a ++ 32 :: b) _ hr (by simp [← hs]) (by simp only [List.length_append, List.length_singleton])
  have s1 : substr stmt (c.length + 1) r.length = .ok r :=
    substr_field stmt (c ++ [32]) r (32 :: (a ++ 32 :: b)) _ _ (by simp [← hs]) (by simp only [List.length_append, List.length_singleton]) rfl
  have f2 : find stmt 32 (c.length + 1 + r.length + 1)
      = c.length + 1 + r.length + 1 + a.length :=
    find_field 32 stmt (c ++ [32] ++ r ++ [32]) a b _ ha (by simp [← hs]) (by simp only [List.length_append, List.length_singleton])
  have s2 : substr stmt (c.length + 1 + r.length + 1) a.length = .ok a :=
    substr_field stmt (c ++ [32] ++ r ++ [32]) a (32 :: b) _ _ (by simp [← hs]) (by simp only [List.length_append, List.length_singleton]) rfl
  have s3 : substr stmt (c.length + 1 + r.length + 1 + a.length + 1) (b.length + 1) = .ok b :=
    substr_last stmt (c ++ [32] ++ r ++ [32] ++ a ++ [32]) b _ _ (by simp [← hs]) (by simp only [List.length_append, List.length_singleton])
      (by omega)
  have a0 : sizeSub c.length 0 = c.length := by unfold sizeSub; omega
  have a1 : sizeAdd c.length 1 = c.length + 1 := by unfold sizeAdd; omega
  have a2 : sizeSub (c.length + 1 + r.length) (c.length + 1) = r.length := by
    unfold sizeSub; omega
  have a3 : sizeAdd (c.length + 1 + r.length) 1 = c.length + 1 + r.length + 1 := by
    unfold sizeAdd; omega
  have a4 : sizeSub (c.length + 1 + r.length + 1 + a.length) (c.length + 1 + r.length + 1)
      = a.length := by
    unfold sizeSub; omega
  have a5 : sizeAdd (c.length + 1 + r.length + 1 + a.length) 1
      = c.length + 1 + r.length + 1 + a.length + 1 := by
    unfold sizeAdd; omega
  have a6 : sizeSub (sizeAdd stmt.length 1) (c.length + 1 + r.length + 1 + a.length + 1)
      = b.length + 1 := by
    unfold sizeSub sizeAdd; omega
  simp only [Catalog.parseStatement, f0, a0, s0, a1, f1, a2, s1, a3, f2, a4, s2, a5, a6, s3,
    bind_ok, pure_ok]

/-- C17. Missing fields wrap around: for every statement `c ++ " " ++ r ++ " " ++ a`
(a `std::string`, so shorter than `npos`) with `c`, `r` and `a` free of spaces,
the third `find` returns `npos`, `pos = npos + 1` is 0 in `size_t`, and the
parse gives command `c`, ref `r`, first argument `a` and as second argument
the entire statement, not the empty string. -/
theorem parseStatement_three_fields (c r a : Str) (hc : (32 : Int) ∉ c)
    (hr : (32 : Int) ∉ r) (ha : (32 : Int) ∉ a)
    (hlen : (c ++ [32] ++ r ++ [32] ++ a).length < npos) :
    sizeAdd npos 1 = 0
      ∧ find (c ++ [32] ++ r ++ [32] ++ a) 32 (c.length + 1 + r.length + 1) = npos
      ∧ Catalog.parseStatement (c ++ [32] ++ r ++ [32] ++ a)
        = .ok { command := c, ref := r, a := a, b := c ++ [32] ++ r ++ [32] ++ a }
      ∧ c ++ [32] ++ r ++ [32] ++ a ≠ [] := by
  simp only [List.length_append, List.length_singleton, npos] at hlen
  generalize hs : c ++ [32] ++ r ++ [32] ++ a = stmt
  have hsl : stmt.length = c.length + r.length + a.length + 2 := by
    rw [← hs]
    simp only [List.length_append, List.length_singleton]
    omega
  have f0 : find stmt 32 0 = c.length := by
    rw [find_field 32 stmt [] c (r ++ 32 :: a) 0 hc (by simp [← hs]) rfl]
    omega
  have s0 : substr stmt 0 c.length = .ok c :=
    substr_field stmt [] c (32 :: (r ++ 32 :: a)) 0 _ (by simp [← hs]) rfl rfl
  have f1 : find stmt 32 (c.length + 1) = c.length + 1 + r.length :=
    find_field 32 stmt (c ++ [32]) r a _ hr (by simp [← hs]) (by simp only [List.length_append, List.length_singleton])
  have s1 : substr stmt (c.length + 1) r.length = .ok r :=
    substr_field stmt (c ++ [32]) r (32 :: a) _ _ (by simp [← hs]) (by simp only [List.length_append, List.length_singleton]) rfl
  have f2 : find stmt 32 (c.length + 1 + r.length + 1) = npos :=
    find_last 32 stmt (c ++ [32] ++ r ++ [32]) a _ ha (by simp [← hs]) (by simp only [List.length_append, List.length_singleton])
  have a4 : a.length ≤ sizeSub npos (c.length + 1 + r.length + 1) := by
    unfold sizeSub npos; omega
  have s2 : substr stmt (c.length + 1 + r.length + 1)
      (sizeSub npos (c.length + 1 + r.length + 1)) = .ok a :=
    substr_last stmt (c ++ [32] ++ r ++ [32]) a _ _ (by simp [← hs]) (by simp only [List.length_append, List.length_singleton]) a4
  have a5 : sizeAdd npos 1 = 0 := by unfold sizeAdd npos; omega
  have a6 : stmt.length ≤ sizeSub (sizeAdd stmt.length 1) 0 := by
    unfold sizeSub sizeAdd; omega
  have s3 : substr stmt 0 (sizeSub (sizeAdd stmt.length 1) 0) = .ok stmt :=
    substr_last stmt [] stmt 0 _ rfl rfl a6
  have a0 : sizeSub c.length 0 = c.length := by unfold sizeSub; omega
  have a1 : sizeAdd c.length 1 = c.length + 1 := by unfold sizeAdd; omega
  have a2 : sizeSub (c.length + 1 + r.length) (c.length + 1) = r.length := by
    unfold sizeSub; omega
  have a3 : sizeAdd (c.length + 1 + r.length) 1 = c.length + 1 + r.length + 1 := by
    unfold sizeAdd; omega
  refine ⟨a5, f2, ?_, ?_⟩
  · simp only [Catalog.parseStatement, f0, a0, s0, a1, f1, a2, s1, a3, f2, s2, a5, s3,
      bind_ok, pure_ok]
  · intro h
    rw [h] at hsl
    simp at hsl

theorem findFrom_bound (c : Int) (l : Str) :
    ∀ i, findFrom c l i = npos ∨ (i ≤ findFrom c l i ∧ findFrom c l i < i + l.length) := by
  induction l with
  | nil => intro i; exact Or.inl rfl
  | cons x xs ih =>
    intro i
    rw [findFrom]
    split
    · exact Or.inr ⟨Nat.le_refl _, by simp only [List.length_cons]; omega⟩
    · rcases ih (i + 1) with h | h
      · exact Or.inl h
      · exact Or.inr ⟨by omega, by simp only [List.length_cons]; omega⟩

/-- The position after what `find` returns is inside the string: `npos + 1` is
0, and a position found is below the length. -/
theorem next_pos_le (s : Str) (pos : Nat) (hlen : s.length < npos) :
    sizeAdd (find s 32 pos) 1 ≤ s.length := by
  unfold npos at hlen
  rcases findFrom_bound 32 (s.drop pos) pos with h | h
  · have : find s 32 pos = npos := h
    rw [this]
    unfold sizeAdd npos
    omega
  · have h1 : find s 32 pos = findFrom 32 (s.drop pos) pos := rfl
    rw [List.length_drop] at h
    unfold sizeAdd
    omega

theorem substr_ok (s : Str) (pos count : Nat) (h : pos ≤ s.length) :
    ∃ x, substr s pos count = .ok x := by
  unfold substr
  rw [if_neg (by omega)]
  exact ⟨_, rfl⟩

/-- The parse of `executeOne` returns its four fields for every statement:
no `substr` is called with a position beyond the size. -/
theorem parseStatement_total (stmt : Str) (hlen : stmt.length < npos) :
    ∃ p, Catalog.parseStatement stmt = .ok p := by
  have h1 := next_pos_le stmt 0 hlen
  have h2 := next_pos_le stmt (sizeAdd (find stmt 32 0) 1) hlen
  have h3 := next_pos_le stmt (sizeAdd (find stmt 32 (sizeAdd (find stmt 32 0) 1)) 1) hlen
  obtain ⟨c, hc⟩ := substr_ok stmt 0 (sizeSub (find stmt 32 0) 0) (Nat.zero_le _)
  obtain ⟨r, hr⟩ := substr_ok stmt (sizeAdd (find stmt 32 0) 1)
    (sizeSub (find stmt 32 (sizeAdd (find stmt 32 0) 1)) (sizeAdd (find stmt 32 0) 1)) h1
  obtain ⟨a, ha⟩ := substr_ok stmt (sizeAdd (find stmt 32 (sizeAdd (find stmt 32 0) 1)) 1)
    (sizeSub (find stmt 32 (sizeAdd (find stmt 32 (sizeAdd (find stmt 32 0) 1)) 1))
      (sizeAdd (find stmt 32 (sizeAdd (find stmt 32 0) 1)) 1)) h2
  obtain ⟨b, hb⟩ := substr_ok stmt
    (sizeAdd (find stmt 32 (sizeAdd (find stmt 32 (sizeAdd (find stmt 32 0) 1)) 1)) 1)
    (sizeSub (sizeAdd stmt.length 1)
      (sizeAdd (find stmt 32 (sizeAdd (find stmt 32 (sizeAdd (find stmt 32 0) 1)) 1)) 1)) h3
  exact ⟨{ command := c, ref := r, a := a, b := b }, by
    simp only [Catalog.parseStatement, hc, hr, ha, hb, bind_ok, pure_ok]⟩

/-! ### `Catalog::splitString` -/

theorem splitOn_not_mem (d : Int) (r : Str) (h : d ∉ r) : r.splitOn d = [r] := by
  apply List.splitOnP_eq_single
  intro x hx hxd
  rw [beq_iff_eq] at hxd
  exact h (hxd ▸ hx)

theorem splitOn_first (d : Int) (x post : Str) (h : d ∉ x) :
    (x ++ d :: post).splitOn d = x :: post.splitOn d := by
  apply List.splitOnP_first
  · intro y hy hyd
    rw [beq_iff_eq] at hyd
    exact h (hyd ▸ hy)
  · exact beq_self_eq_true d

theorem splitOn_ne_nil (d : Int) (r : Str) : r.splitOn d ≠ [] :=
  List.splitOnP_ne_nil _ _

theorem dropLastEmpty_cons (x : Str) (l : List Str) (h : l ≠ []) :
    dropLastEmpty (x :: l) = x :: dropLastEmpty l := by
  obtain ⟨y, ys, rfl⟩ := List.exists_cons_of_ne_nil h
  simp only [dropLastEmpty, List.getLast?_cons_cons, List.dropLast_cons₂]
  split <;> rfl

/-- The loop of `splitString` at `begin = pre.length`, with the part `r` of the
string still to split and more rounds allowed than `r` has characters. -/
theorem splitStringLoop_spec (s : Str) (d : Int) (hlen : s.length < npos) :
    ∀ (fuel : Nat) (pre r : Str) (vec : List Str), s = pre ++ r → r.length < fuel →
      Catalog.splitStringLoop s d fuel pre.length vec
        = some (.ok (vec ++ splitDropLastEmpty r d)) := by
  intro fuel
  induction fuel with
  | zero => intro pre r vec _ h; exact absurd h (Nat.not_lt_zero _)
  | succ fuel ih =>
    intro pre r vec hs hfuel
    have hsl : s.length = pre.length + r.length := by rw [hs, List.length_append]
    unfold npos at hlen
    by_cases hd : d ∈ r
    · obtain ⟨x, post, hr, hx⟩ := List.eq_append_cons_of_mem hd
      have hrl : r.length = x.length + post.length + 1 := by
        rw [hr]
        simp only [List.length_append, List.length_cons]
        omega
      have hf : find s d pre.length = pre.length + x.length :=
        find_field d s pre x post _ hx (by rw [hs, hr]) rfl
      have hne : ¬ pre.length + x.length = npos := by unfold npos; omega
      have hsub : sizeSub (pre.length + x.length) pre.length = x.length := by
        unfold sizeSub; omega
      have hp : substr s pre.length x.length = .ok x :=
        substr_field s pre x (d :: post) _ _ (by rw [hs, hr]) rfl rfl
      have hadd : sizeAdd (pre.length + x.length) 1 = (pre ++ x ++ [d]).length := by
        simp only [sizeAdd, List.length_append, List.length_singleton]
        omega
      have hrec := ih (pre ++ x ++ [d]) post (vec ++ [x]) (by rw [hs, hr]; simp) (by omega)
      rw [Catalog.splitStringLoop]
      simp only [hf, hne, if_false, hsub, hp, hadd, hrec]
      simp only [hr, splitDropLastEmpty]
      rw [splitOn_first d x post hx, dropLastEmpty_cons x _ (splitOn_ne_nil d post)]
      simp
    · have hf : find s d pre.length = npos := find_last d s pre r _ hd hs rfl
      rw [Catalog.splitStringLoop]
      simp only [hf, if_true]
      rw [splitDropLastEmpty, splitOn_not_mem d r hd]
      by_cases hr : r = []
      · subst hr
        have hb : pre.length = s.length := by rw [hsl]; rfl
        simp [hb, dropLastEmpty]
      · have hb : pre.length ≠ s.length := by
          have := List.length_pos.mpr hr
          omega
        have hp : substr s pre.length npos = .ok r :=
          substr_last s pre r _ _ hs rfl (by unfold npos; omega)
        simp [hb, hp, dropLastEmpty, hr]

theorem splitOn_pieces_not_mem (d : Int) :
    ∀ (n : Nat) (r : Str), r.length ≤ n → ∀ p ∈ r.splitOn d, d ∉ p := by
  intro n
  induction n with
  | zero =>
    intro r hr p hp
    have : r = [] := List.length_eq_zero.mp (Nat.le_zero.mp hr)
    subst this
    simp only [List.splitOn_nil, List.mem_singleton] at hp
    subst hp
    exact List.not_mem_nil d
  | succ n ih =>
    intro r hr p hp
    by_cases hd : d ∈ r
    · obtain ⟨x, post, hxr, hx⟩ := List.eq_append_cons_of_mem hd
      subst hxr
      rw [splitOn_first d x post hx, List.mem_cons] at hp
      rcases hp with hp | hp
      · subst hp
        exact hx
      · refine ih post ?_ p hp
        simp only [List.length_append, List.length_cons] at hr
        omega
    · rw [splitOn_not_mem d r hd, List.mem_singleton] at hp
      subst hp
      exact hd

theorem splitOn_concat_delimiter (d : Int) :
    ∀ (n : Nat) (r : Str), r.length ≤ n → (r ++ [d]).splitOn d = r.splitOn d ++ [[]] := by
  intro n
  induction n with
  | zero =>
    intro r hr
    have : r = [] := List.length_eq_zero.mp (Nat.le_zero.mp hr)
    subst this
    have h := splitOn_first d [] [] (List.not_mem_nil d)
    simpa using h
  | succ n ih =>
    intro r hr
    by_cases hd : d ∈ r
    · obtain ⟨x, post, hxr, hx⟩ := List.eq_append_cons_of_mem hd
      subst hxr
      have hpost : post.length ≤ n := by
        simp only [List.length_append, List.length_cons] at hr
        omega
      have e : x ++ d :: post ++ [d] = x ++ d :: (post ++ [d]) := by simp
      rw [e, splitOn_first d x _ hx, ih post hpost, splitOn_first d x post hx]
      rfl
    · have h := splitOn_first d r [] hd
      rw [h, splitOn_not_mem d r hd]
      rfl

theorem splitOn_last_ne_nil (d : Int) :
    ∀ (n : Nat) (r : Str), r.length ≤ n → r ≠ [] → r.getLast? ≠ some d →
      (r.splitOn d).getLast? ≠ some [] := by
  intro n
  induction n with
  | zero =>
    intro r hr hne
    exact absurd (List.length_eq_zero.mp (Nat.le_zero.mp hr)) hne
  | succ n ih =>
    intro r hr hne hlast
    by_cases hd : d ∈ r
    · obtain ⟨x, post, hxr, hx⟩ := List.eq_append_cons_of_mem hd
      subst hxr
      have hpost : post.length ≤ n := by
        simp only [List.length_append, List.length_cons] at hr
        omega
      have hpne : post ≠ [] := by
        intro h
        subst h
        exact hlast (List.getLast?_concat x)
      have hplast : post.getLast? ≠ some d := by
        intro h
        apply hlast
        obtain ⟨y, ys, rfl⟩ := List.exists_cons_of_ne_nil hpne
        rw [List.getLast?_append, List.getLast?_cons_cons, h]
        rfl
      rw [splitOn_first d x post hx]
      obtain ⟨y, ys, hy⟩ := List.exists_cons_of_ne_nil (splitOn_ne_nil d post)
      rw [hy, List.getLast?_cons_cons, ← hy]
      exact ih post hpost hpne hplast
    · rw [splitOn_not_mem d r hd]
      intro h
      simp only [List.getLast?_singleton, Option.some.injEq] at h
      exact hne h

theorem mem_of_mem_dropLastEmpty (l : List Str) (p : Str) (h : p ∈ dropLastEmpty l) : p ∈ l := by
  unfold dropLastEmpty at h
  split at h
  · exact List.mem_of_mem_dropLast h
  · exact h

theorem dropLastEmpty_concat_nil (l : List Str) : dropLastEmpty (l ++ [[]]) = l := by
  simp [dropLastEmpty]

theorem dropLastEmpty_of_last (l : List Str) (h : l.getLast? ≠ some []) : dropLastEmpty l = l := by
  simp [dropLastEmpty, h]

/-- C16. `Catalog::splitString(s, d)` terminates, with every bound on the
rounds above the length of `s` (a `std::string`, so shorter than `npos`), and
returns the full split of `s` on `d` with the last piece dropped when it is
empty: no piece contains `d`, the empty string gives no piece, joining the
pieces with `d` gives `s` when `s` does not end with `d` and `s` without its
final `d` otherwise, and a `d` put after a non-empty `s` that does not end
with `d` adds no piece. -/
theorem splitString_spec (s : Str) (d : Int) (hlen : s.length < npos) :
    (∀ fuel, s.length < fuel →
        Catalog.splitStringLoop s d fuel 0 [] = some (.ok (splitDropLastEmpty s d)))
      ∧ Catalog.splitString s d = some (.ok (splitDropLastEmpty s d))
      ∧ (∀ p ∈ splitDropLastEmpty s d, d ∉ p)
      ∧ (s = [] → splitDropLastEmpty s d = [])
      ∧ (s.getLast? ≠ some d → [d].intercalate (splitDropLastEmpty s d) = s)
      ∧ (∀ s1, s = s1 ++ [d] → [d].intercalate (splitDropLastEmpty s d) = s1)
      ∧ (s ≠ [] → s.getLast? ≠ some d → (s ++ [d]).length < npos →
          Catalog.splitString (s ++ [d]) d = Catalog.splitString s d) := by
  have hloop : ∀ (t : Str), t.length < npos → ∀ fuel, t.length < fuel →
      Catalog.splitStringLoop t d fuel 0 [] = some (.ok (splitDropLastEmpty t d)) := by
    intro t ht fuel hfuel
    have h := splitStringLoop_spec t d ht fuel [] t [] rfl hfuel
    simpa using h
  have hkeep : s ≠ [] → s.getLast? ≠ some d → splitDropLastEmpty s d = s.splitOn d :=
    fun hne hlast => dropLastEmpty_of_last _ (splitOn_last_ne_nil d s.length s (le_refl _) hne hlast)
  refine ⟨hloop s hlen, hloop s hlen _ (Nat.lt_succ_self _), ?_, ?_, ?_, ?_, ?_⟩
  · intro p hp
    exact splitOn_pieces_not_mem d s.length s (le_refl _) p (mem_of_mem_dropLastEmpty _ p hp)
  · intro h
    subst h
    rfl
  · intro hlast
    by_cases hne : s = []
    · subst hne
      rfl
    · rw [hkeep hne hlast]
      exact List.intercalate_splitOn _ d
  · intro s1 hs1
    subst hs1
    rw [splitDropLastEmpty, splitOn_concat_delimiter d s1.length s1 (le_refl _),
      dropLastEmpty_concat_nil]
    exact List.intercalate_splitOn _ d
  · intro hne hlast hlen2
    have h1 : Catalog.splitString (s ++ [d]) d
        = some (.ok (splitDropLastEmpty (s ++ [d]) d)) :=
      hloop (s ++ [d]) hlen2 _ (Nat.lt_succ_self _)
    have h2 : Catalog.splitString s d = some (.ok (splitDropLastEmpty s d)) :=
      hloop s hlen _ (Nat.lt_succ_self _)
    rw [h1, h2, hkeep hne hlast, splitDropLastEmpty,
      splitOn_concat_delimiter d s.length s (le_refl _), dropLastEmpty_concat_nil]

/-! ### Hex encoding and decoding -/

theorem toInt32_of_range (k : Int) (h0 : 0 ≤ k) (h1 : k < 2 ^ 31) : AntiCache.toInt32 k = k := by
  unfold AntiCache.toInt32
  omega

theorem hexCharToInt_digit (c : Int) (h : 48 ≤ c ∧ c ≤ 57) : hexCharToInt c = .ok (c - 48) := by
  have h1 : toChar (toupper c) = c := by unfold toChar toupper; split <;> omega
  simp only [hexCharToInt, h1]
  rw [if_neg (by omega), if_neg (by omega), if_neg (by omega)]

theorem hexCharToInt_lower (c : Int) (h : 97 ≤ c ∧ c ≤ 102) :
    hexCharToInt c = .ok (c - 97 + 10) := by
  have h1 : toChar (toupper c) = c - 32 := by unfold toChar toupper; split <;> omega
  have e : (if c - 32 ≥ 65 then c - 32 - 65 + 10 else c - 32 - 48) = c - 97 + 10 := by
    rw [if_pos (by omega)]
    omega
  simp only [hexCharToInt, h1, e]
  rw [if_neg (by omega), if_neg (by omega)]

theorem hexCharToInt_upper (c : Int) (h : 65 ≤ c ∧ c ≤ 70) :
    hexCharToInt c = .ok (c - 65 + 10) := by
  have h1 : toChar (toupper c) = c := by unfold toChar toupper; split <;> omega
  have e : (if c ≥ 65 then c - 65 + 10 else c - 48) = c - 65 + 10 := by
    rw [if_pos (by omega)]
  simp only [hexCharToInt, h1, e]
  rw [if_neg (by omega), if_neg (by omega)]

theorem hexDigit_range (v : Int) (h : 0 ≤ v ∧ v < 16) :
    (48 ≤ hexDigit v ∧ hexDigit v ≤ 57) ∨ (97 ≤ hexDigit v ∧ hexDigit v ≤ 102) := by
  unfold hexDigit
  split <;> omega

theorem hexCharToInt_hexDigit (v : Int) (h : 0 ≤ v ∧ v < 16) :
    hexCharToInt (hexDigit v) = .ok v := by
  by_cases hv : v < 10
  · rw [hexCharToInt_digit _ (by unfold hexDigit; rw [if_pos hv]; omega)]
    unfold hexDigit
    rw [if_pos hv]
    congr 1
    omega
  · rw [hexCharToInt_lower _ (by unfold hexDigit; rw [if_neg hv]; omega)]
    unfold hexDigit
    rw [if_neg hv]
    congr 1
    omega

theorem hexChars_length (s : List Int) : (hexChars s).length = 2 * s.length := by
  induction s with
  | nil => rfl
  | cons c cs ih =>
    simp only [hexChars, List.length_cons, ih]
    omega

theorem hexChars_append (s t : List Int) : hexChars (s ++ t) = hexChars s ++ hexChars t := by
  induction s with
  | nil => rfl
  | cons c cs ih =>
    rw [List.cons_append, hexChars, ih]
    rfl

theorem hexChars_range (s : List Int) :
    ∀ h ∈ hexChars s, (48 ≤ h ∧ h ≤ 57) ∨ (97 ≤ h ∧ h ≤ 102) := by
  induction s with
  | nil => intro h hh; exact absurd hh (List.not_mem_nil h)
  | cons c cs ih =>
    intro h hh
    simp only [hexChars, List.mem_cons] at hh
    rcases hh with hh | hh | hh
    · subst hh
      exact hexDigit_range _ (by omega)
    · subst hh
      exact hexDigit_range _ (by omega)
    · exact ih h hh

theorem getElem?_append_length (pre post : List Int) (x : Int) :
    (pre ++ x :: post)[pre.length]? = some x := by
  induction pre with
  | nil => simp
  | cons p ps ih => simpa using ih

theorem set_append_length (pre post : List Int) (x v : Int) :
    (pre ++ x :: post).set pre.length v = pre ++ v :: post := by
  induction pre with
  | nil => rfl
  | cons p ps ih => simp [ih]

theorem charAt_append (pre post : List Int) (x : Int) (k : Int) (hk : k = pre.length) :
    charAt (pre ++ x :: post) k = .ok x := by
  subst hk
  have h0 : (0 : Int) ≤ (pre.length : Int) := Int.natCast_nonneg _
  simp only [charAt, h0, if_true, Int.toNat_ofNat, getElem?_append_length]

theorem writeAt_append (pre post : List Int) (x v : Int) (k : Int) (hk : k = pre.length) :
    writeAt (pre ++ x :: post) k v = .ok (pre ++ v :: post) := by
  subst hk
  have h0 : (0 : Int) ≤ (pre.length : Int) := Int.natCast_nonneg _
  have h1 : pre.length < (pre ++ x :: post).length := by
    simp only [List.length_append, List.length_cons]
    omega
  simp only [writeAt, h0, Int.toNat_ofNat, h1, and_self, if_true, set_append_length]

theorem strlen_append (s tail : List Int) (h : (0 : Int) ∉ s) :
    strlen (s ++ 0 :: tail) = s.length := by
  induction s with
  | nil => simp [strlen]
  | cons c cs ih =>
    have hc : c ≠ 0 := fun e => h (by simp [e])
    have hcs : (0 : Int) ∉ cs := fun e => h (List.mem_cons_of_mem _ e)
    have := ih hcs
    simp only [strlen, ne_eq, decide_not] at this
    simp [strlen, List.takeWhile, hc, this]

theorem toChar_nibbles (c : Int) (h : -128 ≤ c ∧ c ≤ 127) :
    toChar (c / 16 % 16 * 16 + c % 16) = c := by
  unfold toChar
  omega

/-- The loop of `hexEncodeString` over the characters `todo`, after `pre`. -/
theorem hexEncodeLoop_spec (string : List Int) :
    ∀ (todo pre post out free : List Int),
      string = pre ++ (todo ++ post) → out.length = 2 * pre.length →
      2 * todo.length ≤ free.length → pre.length + todo.length ≤ 2 ^ 30 →
      Catalog.hexEncodeLoop string todo.length pre.length (out ++ free)
        = .ok (out ++ (hexChars todo ++ free.drop (2 * todo.length))) := by
  intro todo
  induction todo with
  | nil =>
    intro pre post out free _ _ _ _
    rfl
  | cons c cs ih =>
    intro pre post out free hs hout hfree hlen
    simp only [List.length_cons] at hfree hlen
    obtain ⟨f0, free1, rfl⟩ := List.exists_cons_of_ne_nil
      (List.ne_nil_of_length_pos (by omega : 0 < free.length))
    simp only [List.length_cons] at hfree
    obtain ⟨f1, free2, rfl⟩ := List.exists_cons_of_ne_nil
      (List.ne_nil_of_length_pos (by omega : 0 < free1.length))
    simp only [List.length_cons] at hfree
    have hi : AntiCache.toInt32 (pre.length : Int) = pre.length :=
      toInt32_of_range _ (by omega) (by omega)
    have hi2 : AntiCache.toInt32 ((pre.length : Int) * 2) = (pre.length : Int) * 2 :=
      toInt32_of_range _ (by omega) (by omega)
    have hi3 : AntiCache.toInt32 ((pre.length : Int) * 2 + 1) = (pre.length : Int) * 2 + 1 :=
      toInt32_of_range _ (by omega) (by omega)
    have hread : charAt string (pre.length : Int) = .ok c := by
      rw [hs]
      exact charAt_append pre (cs ++ post) c _ rfl
    have hw1 : writeAt (out ++ f0 :: f1 :: free2) ((pre.length : Int) * 2)
        (hexDigit (c / 16 % 16)) = .ok (out ++ hexDigit (c / 16 % 16) :: f1 :: free2) :=
      writeAt_append out (f1 :: free2) f0 _ _ (by omega)
    have hw2 : writeAt (out ++ hexDigit (c / 16 % 16) :: f1 :: free2)
        ((pre.length : Int) * 2 + 1) (hexDigit (c % 16))
        = .ok (out ++ [hexDigit (c / 16 % 16)] ++ hexDigit (c % 16) :: free2) := by
      have e : out ++ hexDigit (c / 16 % 16) :: f1 :: free2
          = (out ++ [hexDigit (c / 16 % 16)]) ++ f1 :: free2 := by simp
      have hk : (pre.length : Int) * 2 + 1 = ((out ++ [hexDigit (c / 16 % 16)]).length : Nat) := by
        simp only [List.length_append, List.length_singleton]
        push_cast
        omega
      rw [e]
      exact writeAt_append _ free2 f1 _ _ hk
    have hrec := ih (pre ++ [c]) post (out ++ [hexDigit (c / 16 % 16)] ++ [hexDigit (c % 16)])
      free2 (by rw [hs]; simp)
      (by simp only [List.length_append, List.length_singleton]; omega) (by omega)
      (by simp only [List.length_append, List.length_singleton]; omega)
    simp only [List.length_append, List.length_singleton] at hrec
    rw [List.length_cons, Catalog.hexEncodeLoop]
    simp only [hi, hi2, hi3, hread, hw1, hw2, bind_ok]
    have e2 : out ++ [hexDigit (c / 16 % 16)] ++ hexDigit (c % 16) :: free2
        = out ++ [hexDigit (c / 16 % 16)] ++ [hexDigit (c % 16)] ++ free2 := by simp
    rw [e2, hrec]
    have e3 : 2 * (cs.length + 1) = 2 * cs.length + 1 + 1 := by omega
    simp [hexChars, e3]

/-- The loop of `hexDecodeString` over the hex digits of `todo`, after those of
`pre`. -/
theorem hexDecodeLoop_spec (hexString : List Int) :
    ∀ (todo pre post out free : List Int),
      hexString = hexChars pre ++ (hexChars todo ++ post) → out.length = pre.length →
      todo.length ≤ free.length → (∀ c ∈ todo, -128 ≤ c ∧ c ≤ 127) →
      pre.length + todo.length ≤ 2 ^ 30 →
      Catalog.hexDecodeLoop hexString todo.length pre.length (out ++ free)
        = .ok (out ++ (todo ++ free.drop todo.length)) := by
  intro todo
  induction todo with
  | nil =>
    intro pre post out free _ _ _ _ _
    rfl
  | cons c cs ih =>
    intro pre post out free hs hout hfree hchar hlen
    simp only [List.length_cons] at hfree hlen
    obtain ⟨f0, free1, rfl⟩ := List.exists_cons_of_ne_nil
      (List.ne_nil_of_length_pos (by omega : 0 < free.length))
    simp only [List.length_cons] at hfree
    have hc := hchar c (List.mem_cons_self _ _)
    have hpl := hexChars_length pre
    have hi : AntiCache.toInt32 (pre.length : Int) = pre.length :=
      toInt32_of_range _ (by omega) (by omega)
    have hi2 : AntiCache.toInt32 ((pre.length : Int) * 2) = (pre.length : Int) * 2 :=
      toInt32_of_range _ (by omega) (by omega)
    have hi3 : AntiCache.toInt32 ((pre.length : Int) * 2 + 1) = (pre.length : Int) * 2 + 1 :=
      toInt32_of_range _ (by omega) (by omega)
    have hr1 : charAt hexString ((pre.length : Int) * 2) = .ok (hexDigit (c / 16 % 16)) := by
      rw [hs]
      exact charAt_append (hexChars pre) _ _ _ (by omega)
    have hr2 : charAt hexString ((pre.length : Int) * 2 + 1) = .ok (hexDigit (c % 16)) := by
      have e : hexString = (hexChars pre ++ [hexDigit (c / 16 % 16)])
          ++ hexDigit (c % 16) :: (hexChars cs ++ post) := by
        rw [hs]
        simp [hexChars]
      have hk : (pre.length : Int) * 2 + 1
          = ((hexChars pre ++ [hexDigit (c / 16 % 16)]).length : Nat) := by
        simp only [List.length_append, List.length_singleton]
        push_cast
        omega
      rw [e]
      exact charAt_append _ _ _ _ hk
    have hh := hexCharToInt_hexDigit (c / 16 % 16) (by omega)
    have hl := hexCharToInt_hexDigit (c % 16) (by omega)
    have hres : (c / 16 % 16 * 16 + c % 16 ≥ 0 ∧ c / 16 % 16 * 16 + c % 16 < 256) := by omega
    have hw : writeAt (out ++ f0 :: free1) (pre.length : Int)
        (toChar (c / 16 % 16 * 16 + c % 16)) = .ok (out ++ c :: free1) := by
      rw [toChar_nibbles c hc]
      exact writeAt_append out free1 f0 _ _ (by omega)
    have hrec := ih (pre ++ [c]) post (out ++ [c]) free1
      (by rw [hs]; simp [hexChars_append, hexChars])
      (by simp only [List.length_append, List.length_singleton]; omega) (by omega)
      (fun x hx => hchar x (List.mem_cons_of_mem _ hx))
      (by simp only [List.length_append, List.length_singleton]; omega)
    simp only [List.length_append, List.length_singleton] at hrec
    rw [List.length_cons, Catalog.hexDecodeLoop]
    simp only [hi, hi2, hi3, hr1, hr2, hh, hl, bind_ok]
    rw [if_neg (not_not.mpr hres)]
    have e2 : out ++ c :: free1 = out ++ [c] ++ free1 := by simp
    simp only [hw, bind_ok, e2, hrec]
    simp

theorem drop_succ_of_drop (l : List Int) (n : Nat) (x : Int) (rest : List Int)
    (h : l.drop n = x :: rest) : l.drop (n + 1) = rest := by
  have h1 : l.drop (n + 1) = (l.drop n).drop 1 := by
    rw [List.drop_drop]
  rw [h1, h]
  rfl

theorem hexEncodeString_spec (s tail buffer : List Int) (hnul : (0 : Int) ∉ s)
    (hlen : s.length ≤ 2 ^ 30) (hbuf : 2 * s.length + 1 ≤ buffer.length) :
    Catalog.hexEncodeString (s ++ 0 :: tail) buffer
      = writeAt (hexChars s ++ buffer.drop (2 * s.length))
          (AntiCache.toInt32 ((s.length : Int) * 2)) 0 := by
  have hloop : Catalog.hexEncodeLoop (s ++ 0 :: tail) s.length 0 buffer
      = .ok (hexChars s ++ buffer.drop (2 * s.length)) :=
    hexEncodeLoop_spec (s ++ 0 :: tail) s [] (0 :: tail) [] buffer rfl rfl
      (by omega) (by simpa using hlen)
  show (Catalog.hexEncodeLoop (s ++ 0 :: tail) (strlen (s ++ 0 :: tail)) 0 buffer >>= fun b =>
      writeAt b (AntiCache.toInt32 ((strlen (s ++ 0 :: tail) : Int) * 2)) 0) = _
  rw [strlen_append s tail hnul, hloop, bind_ok]

/-- C14, the code at the failing input. For the hex string `"41"` a buffer of
one character is "at least half as long as the string", and `hexDecodeString`
writes the terminating NUL at index 1, outside it; a buffer of two characters
is what the call needs. -/
theorem hexDecodeString_writes_past_documented_buffer :
    (lit "41").length / 2 ≤ ([7] : List Int).length
      ∧ Catalog.hexDecodeString (lit "41") [7] = .error (.outOfBounds 1)
      ∧ Catalog.hexDecodeString (lit "41") [7, 7] = .ok [65, 0] := by
  refine ⟨by decide, ?_, ?_⟩ <;> rfl

/-- C15, counterexample. For the string of 2^30 characters `a` (no NUL, all
valid characters) and a buffer of 2^31 + 1 characters, the index `i * 2` of the
terminating NUL is 2^31, which in 32 bits is -2^31: `hexEncodeString` ends with
an access outside the buffer and not with the hex digits followed by NUL. -/
theorem hexEncodeString_1GiB_counterexample :
    (0 : Int) ∉ string1GiB
      ∧ (∀ c ∈ string1GiB, -128 ≤ c ∧ c ≤ 127)
      ∧ 2 * string1GiB.length + 1 ≤ buffer2GiB.length
      ∧ Catalog.hexEncodeString (string1GiB ++ [0]) buffer2GiB
        = .error (.outOfBounds (-2147483648)) := by
  have hl : string1GiB.length = 2 ^ 30 := List.length_replicate _ _
  have hb : buffer2GiB.length = 2 ^ 31 + 1 := List.length_replicate _ _
  have hmem : ∀ c ∈ string1GiB, c = 97 := fun c hc => (List.mem_replicate.mp hc).2
  have hnul : (0 : Int) ∉ string1GiB := fun h => absurd (hmem 0 h) (by decide)
  refine ⟨hnul, ?_, ?_, ?_⟩
  · intro c hc
    rw [hmem c hc]
    decide
  · rw [hl, hb]
    decide
  · rw [hexEncodeString_spec string1GiB [] buffer2GiB hnul (by rw [hl]) (by rw [hl, hb]; decide),
      hl]
    have hi : AntiCache.toInt32 (((2 ^ 30 : Nat) : Int) * 2) = -2147483648 := by decide
    rw [hi]
    unfold writeAt
    rw [if_neg]
    intro h
    exact absurd h.1 (by decide)

/-- C15, amended. Hex round trip for strings shorter than 2^30: for every
string `s` of characters (values from -128 to 127, so bytes from 0x80 on
included) without NUL and with fewer than 2^30 characters, `hexEncodeString`
writes exactly `2 * length s` characters, all in `[0-9a-f]`, followed by NUL,
and `hexDecodeString` applied to these characters writes `s` followed by NUL;
`hexCharToInt` maps each of `0`-`9`, `a`-`f` and `A`-`F` to its value. -/
theorem hex_roundtrip (s tail buffer buffer2 : List Int)
    (hchar : ∀ c ∈ s, -128 ≤ c ∧ c ≤ 127) (hnul : (0 : Int) ∉ s) (hlen : s.length < 2 ^ 30)
    (hbuf : 2 * s.length + 1 ≤ buffer.length) (hbuf2 : s.length + 1 ≤ buffer2.length) :
    ∃ hex, hex.length = 2 * s.length
      ∧ (∀ h ∈ hex, (48 ≤ h ∧ h ≤ 57) ∨ (97 ≤ h ∧ h ≤ 102))
      ∧ Catalog.hexEncodeString (s ++ 0 :: tail) buffer
          = .ok (hex ++ 0 :: buffer.drop (2 * s.length + 1))
      ∧ Catalog.hexDecodeString hex buffer2 = .ok (s ++ 0 :: buffer2.drop (s.length + 1))
      ∧ ∀ c : Int, (48 ≤ c ∧ c ≤ 57 → hexCharToInt c = .ok (c - 48))
          ∧ (97 ≤ c ∧ c ≤ 102 → hexCharToInt c = .ok (c - 97 + 10))
          ∧ (65 ≤ c ∧ c ≤ 70 → hexCharToInt c = .ok (c - 65 + 10)) := by
  refine ⟨hexChars s, hexChars_length s, hexChars_range s, ?_, ?_, fun c =>
    ⟨hexCharToInt_digit c, hexCharToInt_lower c, hexCharToInt_upper c⟩⟩
  · obtain ⟨x, rest, hx⟩ := List.exists_cons_of_ne_nil
      (List.ne_nil_of_length_pos (by rw [List.length_drop]; omega :
        0 < (buffer.drop (2 * s.length)).length))
    rw [hexEncodeString_spec s tail buffer hnul (by omega) hbuf, hx,
      toInt32_of_range _ (by omega) (by omega), drop_succ_of_drop buffer _ x rest hx]
    exact writeAt_append _ _ _ _ _ (by rw [hexChars_length]; push_cast; omega)
  · obtain ⟨x, rest, hx⟩ := List.exists_cons_of_ne_nil
      (List.ne_nil_of_length_pos (by rw [List.length_drop]; omega :
        0 < (buffer2.drop s.length).length))
    have hloop : Catalog.hexDecodeLoop (hexChars s) s.length 0 buffer2
        = .ok (s ++ buffer2.drop s.length) :=
      hexDecodeLoop_spec (hexChars s) s [] [] [] buffer2 (by simp [hexChars]) rfl
        (by omega) hchar (by simpa using Nat.le_of_lt hlen)
    have hn : (hexChars s).length / 2 = s.length := by
      rw [hexChars_length]
      omega
    show (Catalog.hexDecodeLoop (hexChars s) ((hexChars s).length / 2) 0 buffer2 >>= fun b =>
      writeAt b (AntiCache.toInt32 (((hexChars s).length / 2 : Nat) : Int)) 0) = _
    rw [hn, hloop, bind_ok]
    rw [hx, toInt32_of_range _ (by omega) (by omega), drop_succ_of_drop buffer2 _ x rest hx]
    exact writeAt_append _ _ _ _ _ rfl

/-! ### `Catalog::executeOne` -/

/-- C13, at a statement whose second argument contains a space. -/
theorem parseStatement_four_fields_witness :
    Catalog.parseStatement
        (lit "add" ++ [32] ++ lit "/clusters[x]" ++ [32] ++ lit "tables" ++ [32] ++ lit "my table")
      = .ok { command := lit "add", ref := lit "/clusters[x]", a := lit "tables",
              b := lit "my table" } :=
  parseStatement_four_fields (lit "add") (lit "/clusters[x]") (lit "tables") (lit "my table")
    (by decide) (by decide) (by decide) (by decide)

/-- C15 amended, at a string with negative characters. -/
theorem hex_roundtrip_witness :
    ∃ hex, hex.length = 2 * ([65, -85, 127, -128, -1] : List Int).length
      ∧ (∀ h ∈ hex, (48 ≤ h ∧ h ≤ 57) ∨ (97 ≤ h ∧ h ≤ 102))
      ∧ Catalog.hexEncodeString ([65, -85, 127, -128, -1] ++ 0 :: []) (List.replicate 11 7)
          = .ok (hex ++ 0 :: (List.replicate 11 7).drop
              (2 * ([65, -85, 127, -128, -1] : List Int).length + 1))
      ∧ Catalog.hexDecodeString hex (List.replicate 6 7)
          = .ok ([65, -85, 127, -128, -1] ++ 0 :: (List.replicate 6 7).drop
              (([65, -85, 127, -128, -1] : List Int).length + 1))
      ∧ ∀ c : Int, (48 ≤ c ∧ c ≤ 57 → hexCharToInt c = .ok (c - 48))
          ∧ (97 ≤ c ∧ c ≤ 102 → hexCharToInt c = .ok (c - 97 + 10))
          ∧ (65 ≤ c ∧ c ≤ 70 → hexCharToInt c = .ok (c - 65 + 10)) :=
  hex_roundtrip [65, -85, 127, -128, -1] [] (List.replicate 11 7) (List.replicate 6 7)
    (by decide) (by decide) (by decide) (by decide) (by decide)

/-- C16, at a string with an empty line inside and a newline at its end. -/
theorem splitString_spec_witness :
    Catalog.splitString (lit "a\n\nb\n") 10
        = some (.ok (splitDropLastEmpty (lit "a\n\nb\n") 10))
      ∧ splitDropLastEmpty (lit "a\n\nb\n") 10 = [lit "a", [], lit "b"] :=
  ⟨(splitString_spec (lit "a\n\nb\n") 10 (by decide)).2.1, by decide⟩

/-- C17, at the statement `add / clusters`. -/
theorem parseStatement_three_fields_witness :
    sizeAdd npos 1 = 0
      ∧ find (lit "add" ++ [32] ++ lit "/" ++ [32] ++ lit "clusters") 32
          ((lit "add").length + 1 + (lit "/").length + 1) = npos
      ∧ Catalog.parseStatement (lit "add" ++ [32] ++ lit "/" ++ [32] ++ lit "clusters")
        = .ok { command := lit "add", ref := lit "/", a := lit "clusters",
                b := lit "add" ++ [32] ++ lit "/" ++ [32] ++ lit "clusters" }
      ∧ lit "add" ++ [32] ++ lit "/" ++ [32] ++ lit "clusters" ≠ [] :=
  parseStatement_three_fields (lit "add") (lit "/") (lit "clusters")
    (by decide) (by decide) (by decide) (by decide)

end catalog
